import Mathlib

/-!
Verification development for the uart-monitor daemon (C sources).

The C sources are shallowly embedded here:

* `log.c` (`log_write`, `log_flush`, `log_marker`, `log_prune_sessions`):
  the log file is modelled as a list of `Entry` items, where `Entry.ts`
  stands for one timestamp string produced by `timestamp_now` (timestamp
  text is abstracted; everything else is byte-exact), `Entry.ch c` is an
  ordinary data byte and `Entry.nl` a written newline byte.
* `identify.c` (`get_device_label`): C strings become `List Char`.
* `monitor.c` (`add_port`, `remove_port`, `yield_port`, `reclaim_port`,
  `handle_control_cmd`, `port_matches_filter`): the daemon state keeps the
  dense port table and the set of epoll registrations made for serial
  sources, modelled as `(fd, index)` pairs (`ev.data.ptr` points at the
  port's `event_ctx_t`, whose payload is its `index`).  Outcomes of
  syscalls that depend on the outside world (`serial_open`, `log_open`,
  `epoll_ctl` failures, reading `status.json`) enter as explicit oracle
  parameters.

Machine integers stay well inside `int`/`size_t` ranges in all modelled
code paths, so `Nat`/`Int` are used without wraparound.
-/

namespace UartMon

/-- One item of a log file: an abstract timestamp string (the part between
the brackets that `timestamp_now` produces), a data byte, or a newline. -/
inductive Entry where
  | ts : Entry
  | ch : Nat → Entry
  | nl : Entry
deriving DecidableEq

/-- State of `log_file_t` (log.h): open flag (`fp != NULL`), file contents,
line buffer and the `bytes_written` counter.  `filepath`, `session_start`
and `last_flush` play no role in the modelled behaviour. -/
structure LogState where
  isOpen : Bool
  file : List Entry
  linebuf : List Nat
  bytesWritten : Nat
deriving DecidableEq

/-- `LOG_LINE_BUF_SIZE` from log.h. -/
def LOG_LINE_BUF_SIZE : Nat := 2048

/-- Bytes of a string literal (ASCII). -/
def strBytes (s : String) : List Nat := s.data.map Char.toNat

/-- Characters of a string literal. -/
def strL (s : String) : List Char := s.data

/-- Output of `write_timestamp` (log.c): the text that one
`fprintf(fp, "[%s] ", ts)` appends. -/
def tsTok : List Entry := [Entry.ch 91, Entry.ts, Entry.ch 93, Entry.ch 32]

/-- Append a timestamp prefix to the file (`write_timestamp`). -/
def emitTs (st : LogState) : LogState :=
  { st with file := st.file ++ tsTok }

/-- Flush the line buffer followed by one newline, counting the bytes:
`fwrite(linebuf); bytes_written += linebuf_len; fputc('\n');
bytes_written++; linebuf_len = 0;` -/
def flushNl (st : LogState) : LogState :=
  { st with file := st.file ++ st.linebuf.map Entry.ch ++ [Entry.nl],
            bytesWritten := st.bytesWritten + st.linebuf.length + 1,
            linebuf := [] }

/-- The body of `log_write`'s per-byte loop after CR normalisation
(log.c lines 114-141); `c` is never 13 here. -/
def wtStep (st : LogState) (c : Nat) : LogState :=
  let st1 := if st.linebuf.length = 0 ∧ c ≠ 10 then emitTs st else st
  if c = 10 then
    flushNl st1
  else
    let st2 := if st1.linebuf.length < LOG_LINE_BUF_SIZE - 1 then
                 { st1 with linebuf := st1.linebuf ++ [c] }
               else st1
    if LOG_LINE_BUF_SIZE - 1 ≤ st2.linebuf.length then flushNl st2 else st2

/-- The loop of `log_write` (log.c lines 102-142): a 13 is skipped when the
next byte in the same call is a 10, and otherwise handled as a 10. -/
def logWriteAux : LogState → List Nat → LogState
  | st, [] => st
  | st, c :: rest =>
    if c = 13 then
      if rest.head? = some 10 then logWriteAux st rest
      else logWriteAux (wtStep st 10) rest
    else logWriteAux (wtStep st c) rest

/-- `log_write` (log.c lines 96-146); the `last_flush` clock update is not
modelled. -/
def log_write (st : LogState) (data : List Nat) : LogState :=
  if st.isOpen then logWriteAux st data else st

/-- `log_flush` (log.c lines 148-162). -/
def log_flush (st : LogState) : LogState :=
  if st.isOpen then (if st.linebuf = [] then st else flushNl st) else st

/-- What `log_marker`'s pending-line flush appends to the file
(log.c lines 171-175); note it does not touch `bytes_written`. -/
def bufDump (buf : List Nat) : List Entry :=
  if buf = [] then [] else buf.map Entry.ch ++ [Entry.nl]

/-- The text `fprintf(fp, "\n--- %s [%s] ---\n\n", msg, ts)` appends. -/
def markerText (msg : List Nat) : List Entry :=
  [Entry.nl] ++ (strBytes "--- ").map Entry.ch ++ msg.map Entry.ch
    ++ [Entry.ch 32, Entry.ch 91, Entry.ts, Entry.ch 93]
    ++ (strBytes " ---").map Entry.ch ++ [Entry.nl, Entry.nl]

/-- `log_marker` (log.c lines 164-181). -/
def log_marker (st : LogState) (msg : List Nat) : LogState :=
  if st.isOpen then
    { st with file := st.file ++ bufDump st.linebuf ++ markerText msg,
              linebuf := [] }
  else st

/-- `log_close` (log.c lines 183-191). -/
def log_close (st : LogState) : LogState :=
  if st.isOpen then { log_flush st with isOpen := false } else st

/-- A fresh open log file (state after `log_open` with an empty header;
header text, being written before any data, is irrelevant to the line
properties proved below). -/
def initLog : LogState :=
  { isOpen := true, file := [], linebuf := [], bytesWritten := 0 }

/-- Line splitter state step: a newline closes the current line. -/
def pushEntry (acc : List (List Entry) × List Entry) (e : Entry) :
    List (List Entry) × List Entry :=
  match e with
  | Entry.nl => (acc.1 ++ [acc.2], [])
  | e => (acc.1, acc.2 ++ [e])

/-- Split a file into its newline-closed lines and the trailing partial
line. -/
def fileLines (f : List Entry) : List (List Entry) × List Entry :=
  f.foldl pushEntry ([], [])

/-- All lines of a file, the trailing partial line included. -/
def linesAll (f : List Entry) : List (List Entry) :=
  (fileLines f).1 ++ [(fileLines f).2]

/-- The `bytes_logged` field that `write_status_json` (monitor.c line 185)
reports for a port is the log handle's `bytes_written` counter. -/
def statusBytesLogged (lf : LogState) : Nat := lf.bytesWritten

/-- One entry of the `KNOWN_DEVICES` catalog (devices.h); `boards` holds
the non-NULL prefix of the `boards[4]` array. -/
structure KnownDevice where
  vid : Nat
  pid : Nat
  name : List Char
  expectedPorts : Nat
  boards : List (List Char)
deriving DecidableEq

/-- The fields of `tty_port_t` (identify.h) that `get_device_label` reads.
`ttyName` is a `char[32]`, hence at most 31 characters. -/
structure TtyPort where
  ttyName : List Char
  interfaceNum : Int
  known : Option KnownDevice
  boardOverride : Option (List Char)
deriving DecidableEq

/-- The character loop of `get_device_label`: spaces to underscores,
lowercase ASCII to uppercase, everything else verbatim. -/
def upperUnderscore (s : List Char) : List Char :=
  s.map (fun c =>
    if c = ' ' then '_'
    else if 'a' ≤ c ∧ c ≤ 'z' then Char.ofNat (c.toNat - 32) else c)

def digitChar (n : Nat) : Char := Char.ofNat (48 + n)

/-- Decimal digits of `n` (no leading zeros; empty for 0), with explicit
fuel so that it is structurally recursive. -/
def natDecAux : Nat → Nat → List Char
  | 0, _ => []
  | f + 1, n =>
    if n = 0 then [] else natDecAux f (n / 10) ++ [digitChar (n % 10)]

/-- Decimal rendering of a natural number, as `printf` renders it. -/
def natDec (n : Nat) : List Char :=
  if n = 0 then ['0'] else natDecAux n n

/-- Decimal rendering of an `int`, as `%d` renders it. -/
def intDec (i : Int) : List Char :=
  if i < 0 then '-' :: natDec (-i).toNat else natDec i.toNat

/-- Cases 2 and 3 of `get_device_label` (identify.c lines 197-216): known
device with a first candidate board, else the bare tty name. -/
def get_device_label_no_override (p : TtyPort) : List Char :=
  match p.known with
  | some kd =>
    match kd.boards.head? with
    | some b =>
      if 1 < kd.expectedPorts then
        (((upperUnderscore (b.take 47)).take 48 ++ strL "_UART")
          ++ intDec p.interfaceNum).take 63
      else
        ((upperUnderscore (b.take 47)).take 48 ++ strL "_UART").take 63
    | none => p.ttyName.take 63
  | none => p.ttyName.take 63

/-- `get_device_label` (identify.c lines 180-217).  `strlcpy_safe` into the
48-byte scratch buffer keeps at most 47 characters; `"%.48s"` then takes at
most 48 of those, and `snprintf` into the 64-byte `label` keeps at most 63
characters of the whole result.  The transformation loop runs on the
already-truncated buffer, which equals truncating the transformed string
because the transformation is per-character. -/
def get_device_label (p : TtyPort) : List Char :=
  match p.boardOverride with
  | some b =>
    if b ≠ [] then
      (((upperUnderscore (b.take 47)).take 48 ++ strL "_UART")
        ++ intDec p.interfaceNum).take 63
    else get_device_label_no_override p
  | none => get_device_label_no_override p

def labelSpec48_no_override (p : TtyPort) : List Char :=
  match p.known with
  | some kd =>
    match kd.boards.head? with
    | some b =>
      if 1 < kd.expectedPorts then
        (upperUnderscore b).take 48 ++ strL "_UART" ++ intDec p.interfaceNum
      else (upperUnderscore b).take 48 ++ strL "_UART"
    | none => p.ttyName
  | none => p.ttyName

/-- Modelled from the spec and claim wording (truncation to 48): label
synthesis exactly as claim C3 states it, for comparison with
`get_device_label`. -/
def labelSpec48 (p : TtyPort) : List Char :=
  match p.boardOverride with
  | some b =>
    if b ≠ [] then
      (upperUnderscore b).take 48 ++ strL "_UART" ++ intDec p.interfaceNum
    else labelSpec48_no_override p
  | none => labelSpec48_no_override p

def labelSpec47_no_override (p : TtyPort) : List Char :=
  match p.known with
  | some kd =>
    match kd.boards.head? with
    | some b =>
      if 1 < kd.expectedPorts then
        (upperUnderscore b).take 47 ++ strL "_UART" ++ intDec p.interfaceNum
      else (upperUnderscore b).take 47 ++ strL "_UART"
    | none => p.ttyName
  | none => p.ttyName

/-- The amended specification of label synthesis: as claim C3, but with the
transformed board name truncated to 47 characters. -/
def labelSpec47 (p : TtyPort) : List Char :=
  match p.boardOverride with
  | some b =>
    if b ≠ [] then
      (upperUnderscore b).take 47 ++ strL "_UART" ++ intDec p.interfaceNum
    else labelSpec47_no_override p
  | none => labelSpec47_no_override p

/-- The fields of `monitored_port_t` (monitor.h) the modelled operations
read or write: `identity.dev_path`, `serial.fd`, `yielded`, `evt.index`
and the log handle. -/
structure MPort where
  devPath : List Char
  fd : Int
  yielded : Bool
  evtIndex : Nat
  log : LogState
deriving DecidableEq

/-- Daemon state (`monitor_state_t`): the dense port table, the epoll
registrations made for serial sources as `(fd, index)` pairs (the `index`
being the payload of the registered `event_ctx_t`), the `--only` filter
and the running flag.  The signal/hotplug/control registrations carry no
port index and are not modelled. -/
structure MonState where
  ports : List MPort
  epoll : List (Int × Nat)
  onlyFilter : List Char
  running : Bool
deriving DecidableEq

/-- `MAX_PORTS` from identify.h. -/
def MAX_PORTS : Nat := 64

/-- `epoll_ctl(EPOLL_CTL_DEL, fd)`: drop the registration for `fd`. -/
def epollDel (e : List (Int × Nat)) (fd : Int) : List (Int × Nat) :=
  e.filter (fun r => decide (r.1 ≠ fd))

/-- `epoll_ctl(EPOLL_CTL_MOD, fd)` with a tag carrying index `i`:
re-point the registration of `fd`; no effect when `fd` is unregistered
(the error is ignored in the source). -/
def epollMod (e : List (Int × Nat)) (fd : Int) (i : Nat) : List (Int × Nat) :=
  e.map (fun r => if r.1 = fd then (fd, i) else r)

/-- `epoll_ctl(EPOLL_CTL_ADD, fd)` with a tag carrying index `i`. -/
def epollAdd (e : List (Int × Nat)) (fd : Int) (i : Nat) : List (Int × Nat) :=
  e ++ [(fd, i)]

/-- Split a character list on a separator character. -/
def splitOnChar (c : Char) (l : List Char) : List (List Char) :=
  l.foldr (fun x acc =>
    match acc with
    | [] => [[x]]
    | cur :: rest => if x = c then [] :: cur :: rest else (x :: cur) :: rest)
    [[]]

/-- Tokens as `strtok_r` yields them: split on the separator, empty tokens
skipped. -/
def strtokList (c : Char) (l : List Char) : List (List Char) :=
  (splitOnChar c l).filter (fun t => decide (t ≠ []))

/-- `strrchr(s, '/')` followed by `+ 1`: the text after the last slash,
when a slash is present. -/
def lastComponent (l : List Char) : Option (List Char) :=
  if l.contains '/' then (splitOnChar '/' l).getLast? else none

/-- `port_matches_filter` (monitor.c lines 200-223): empty filter matches
all; otherwise each comma token, trimmed of leading spaces, matches the
full device path or the trailing tty name. -/
def port_matches_filter (devPath filterStr : List Char) : Bool :=
  if filterStr = [] then true
  else (strtokList ',' filterStr).any (fun tok0 =>
    let tok := tok0.dropWhile (fun c => c == ' ')
    tok == devPath ||
      (match lastComponent devPath with
       | some base => tok == base
       | none => false))

/-- `find_port_by_path`'s scan (monitor.c lines 337-345). -/
def findPortAux (dev : List Char) : List MPort → Nat → Option Nat
  | [], _ => none
  | p :: rest, i =>
    if p.devPath = dev then some i else findPortAux dev rest (i + 1)

/-- `find_port_by_path` (monitor.c lines 337-345): first index whose
`dev_path` equals `dev`. -/
def find_port_by_path (st : MonState) (dev : List Char) : Option Nat :=
  findPortAux dev st.ports 0

/-- The port slot `add_port` fills on success. -/
def newMPort (dev : List Char) (fd : Int) (idx : Nat) : MPort :=
  { devPath := dev, fd := fd, yielded := false, evtIndex := idx,
    log := initLog }

/-- `add_port` (monitor.c lines 225-300).  `serialFd` is the outcome of
`serial_open` (`none` for failure), `logOk` of `log_open` and `epollOk` of
`epoll_ctl(ADD)`; on any failure the visible table (`ports[0..port_count)`)
is unchanged.  Returns the new slot index on success. -/
def add_port (st : MonState) (dev : List Char) (serialFd : Option Int)
    (logOk epollOk : Bool) : MonState × Option Nat :=
  if MAX_PORTS ≤ st.ports.length then (st, none)
  else if ¬ port_matches_filter dev st.onlyFilter then (st, none)
  else if st.ports.any (fun p => p.devPath == dev) then (st, none)
  else
    match serialFd with
    | none => (st, none)
    | some fd =>
      if logOk = false then (st, none)
      else if epollOk = false then (st, none)
      else ({ st with
               ports := st.ports ++ [newMPort dev fd st.ports.length],
               epoll := epollAdd st.epoll fd st.ports.length },
             some st.ports.length)

/-- The compaction loop of `remove_port` (monitor.c lines 321-333): shift
each later entry down, rewrite its tag index, and re-register monitoring
fds with the updated tag. -/
def shiftPorts : List MPort → Nat → List (Int × Nat) →
    List MPort × List (Int × Nat)
  | [], _, e => ([], e)
  | p :: rest, i, e =>
    let e' := if 0 ≤ p.fd ∧ p.yielded = false then epollMod e p.fd i else e
    let pr := shiftPorts rest (i + 1) e'
    ({ p with evtIndex := i } :: pr.1, pr.2)

/-- `remove_port` (monitor.c lines 302-335).  The removed port's fd is
unregistered, its log receives a marker and is closed (the port leaves the
table, so nothing of it remains in the state), and the table is
compacted. -/
def remove_port (st : MonState) (idx : Nat) : MonState :=
  if h : idx < st.ports.length then
    let mp := st.ports.get ⟨idx, h⟩
    let e0 := if 0 ≤ mp.fd then epollDel st.epoll mp.fd else st.epoll
    let sh := shiftPorts (st.ports.drop (idx + 1)) idx e0
    { st with ports := st.ports.take idx ++ sh.1, epoll := sh.2 }
  else st

def yieldMsg : List Nat := strBytes "PORT YIELDED (released for flashing)"

def reclaimMsg : List Nat := strBytes "PORT RECLAIMED (monitoring resumed)"

/-- `yield_port` (monitor.c lines 351-377): unregister and close the
serial fd, set the yielded flag, write the marker; idempotent success when
already yielded.  Returns the response text. -/
def yield_port (st : MonState) (idx : Nat) : MonState × List Char :=
  if h : idx < st.ports.length then
    let mp := st.ports.get ⟨idx, h⟩
    if mp.yielded then
      (st, strL "OK already yielded " ++ mp.devPath ++ strL "\n")
    else
      let e := if 0 ≤ mp.fd then epollDel st.epoll mp.fd else st.epoll
      let fd' := if 0 ≤ mp.fd then (-1 : Int) else mp.fd
      let mp' := { mp with fd := fd', yielded := true,
                           log := log_marker mp.log yieldMsg }
      ({ st with ports := st.ports.set idx mp', epoll := e },
       strL "OK yielded " ++ mp.devPath ++ strL "\n")
  else (st, [])

/-- `reclaim_port` (monitor.c lines 379-420).  `newFd` is the outcome of
`serial_open` (which leaves `fd = -1` on failure) and `epollOk` of
`epoll_ctl(ADD)`; the new fd is registered with the port's existing tag
(index unchanged). -/
def reclaim_port (st : MonState) (idx : Nat) (newFd : Option Int)
    (epollOk : Bool) : MonState × List Char :=
  if h : idx < st.ports.length then
    let mp := st.ports.get ⟨idx, h⟩
    if mp.yielded = false then
      (st, strL "OK already monitoring " ++ mp.devPath ++ strL "\n")
    else
      match newFd with
      | none =>
        ({ st with ports := st.ports.set idx { mp with fd := -1 } },
         strL "ERROR cannot reopen " ++ mp.devPath ++ strL "\n")
      | some fd =>
        if epollOk then
          let mp' := { mp with fd := fd, yielded := false,
                               log := log_marker mp.log reclaimMsg }
          ({ st with ports := st.ports.set idx mp',
                     epoll := epollAdd st.epoll fd mp.evtIndex },
           strL "OK reclaimed " ++ mp.devPath ++ strL "\n")
        else
          ({ st with ports := st.ports.set idx { mp with fd := -1 } },
           strL "ERROR epoll add failed for " ++ mp.devPath ++ strL "\n")
  else (st, [])

/-- The trailing-newline strip of `handle_control_cmd`
(monitor.c lines 437-439). -/
def stripTrailingNl (l : List Char) : List Char :=
  (l.reverse.dropWhile (fun c => c == '\n' || c == '\r')).reverse

/-- `handle_control_cmd` (monitor.c lines 426-485) as a request-to-response
function.  `statusDoc` is the outcome of re-reading `status.json` after
`write_status_json` (`none` when `fopen` fails); `newFd`/`epollOk` are the
oracles `reclaim_port` needs.  In the source every response fits the
4096-byte buffer because the request is read into a 512-byte buffer, so
`snprintf` truncation never occurs and is not modelled. -/
def handle_control_cmd (st : MonState) (raw : List Char)
    (statusDoc : Option (List Char)) (newFd : Option Int)
    (epollOk : Bool) : MonState × List Char :=
  let line := stripTrailingNl raw
  if line = strL "STATUS" then
    match statusDoc with
    | some d => (st, d)
    | none => (st, strL "ERROR cannot read status\n")
  else if (strL "YIELD ").isPrefixOf line then
    let dev := line.drop 6
    match find_port_by_path st dev with
    | none => (st, strL "ERROR port not found: " ++ dev ++ strL "\n")
    | some idx => yield_port st idx
  else if (strL "RECLAIM ").isPrefixOf line then
    let dev := line.drop 8
    match find_port_by_path st dev with
    | none => (st, strL "ERROR port not found: " ++ dev ++ strL "\n")
    | some idx => reclaim_port st idx newFd epollOk
  else if line = strL "QUIT" then
    ({ st with running := false }, strL "OK shutting down\n")
  else (st, strL "ERROR unknown command: " ++ line ++ strL "\n")

/-- One table mutation: an `add_port` attempt (with its oracle outcomes) or
a `remove_port`. -/
inductive MOp where
  | add (dev : List Char) (serialFd : Option Int) (logOk epollOk : Bool)
  | remove (idx : Nat)

def monStep (st : MonState) : MOp → MonState
  | MOp.add dev sfd l e => (add_port st dev sfd l e).1
  | MOp.remove i => remove_port st i

def runOps (st : MonState) (ops : List MOp) : MonState :=
  ops.foldl monStep st

/-- Daemon state right after startup: empty port table, no serial
registrations. -/
def initMon (filterStr : List Char) : MonState :=
  { ports := [], epoll := [], onlyFilter := filterStr, running := true }

/-- A port whose serial fd is registered for readiness: open fd and not
yielded. -/
def monActive (p : MPort) : Bool := decide (0 ≤ p.fd) && !p.yielded

/-- The serial registrations a well-formed table at base index `i` should
have: one `(fd, slot)` pair per monitoring port. -/
def regsFrom : Nat → List MPort → List (Int × Nat)
  | _, [] => []
  | i, p :: rest =>
    (if monActive p then [(p.fd, i)] else []) ++ regsFrom (i + 1) rest

/-- The fds of the monitoring ports. -/
def monFds (ps : List MPort) : List Int :=
  ps.filterMap (fun p => if monActive p then some p.fd else none)

/-- Every entry's event-source tag index equals its slot position,
counting from `i`. -/
def idxFromB : Nat → List MPort → Bool
  | _, [] => true
  | i, p :: rest => p.evtIndex == i && idxFromB (i + 1) rest

/-- Well-formedness of the daemon state, as established by `add_port` and
preserved by all port operations: the epoll registrations are exactly the
monitoring ports' fds tagged with their slots, monitoring fds are
pairwise distinct, tag indices match slots, and yielded ports hold a
closed (`-1`) fd. -/
def MonWF (st : MonState) : Prop :=
  st.epoll = regsFrom 0 st.ports ∧
  (monFds st.ports).Nodup ∧
  idxFromB 0 st.ports = true ∧
  st.ports.all (fun p => !p.yielded || decide (p.fd < 0)) = true

/-- A directory entry of the log base directory as `log_prune_sessions`
sees it: its name (bytes, as `strcmp` compares them) and, if opened, the
names of the files inside it. -/
structure SessDir where
  name : List Nat
  files : List (List Nat)
deriving DecidableEq

/-- A filesystem mutation `log_prune_sessions` performs. -/
inductive FsAction where
  | unlink (dir file : List Nat)
  | rmdir (dir : List Nat)
deriving DecidableEq

/-- `strcmp(a, b) < 0` on NUL-free byte strings: strict lexicographic
order. -/
def bytesLt : List Nat → List Nat → Bool
  | [], [] => false
  | [], _ :: _ => true
  | _ :: _, [] => false
  | a :: as, b :: bs =>
    if a < b then true else if b < a then false else bytesLt as bs

/-- `strcmp(a, b) <= 0`, the order `qsort` with `cmp_str` establishes. -/
def bytesLe (a b : List Nat) : Bool := !(bytesLt b a)

/-- The `"session-"` name test of `log_prune_sessions`
(`strncmp(name, "session-", 8) == 0`). -/
def sessTag : List Nat := strBytes "session-"

/-- File names not skipped by the `d_name[0] == '.'` test. -/
def nondot (f : List Nat) : Bool := !(f.head? == some 46)

/-- Removal of one session directory (log.c lines 231-248): unlink every
non-dot file inside, then rmdir the directory. -/
def dirActions (d : SessDir) : List FsAction :=
  (d.files.filter nondot).map (fun f => FsAction.unlink d.name f)
    ++ [FsAction.rmdir d.name]

/-- The sessions `log_prune_sessions` collects (log.c lines 210-217): the
`session-` entries in `readdir` order, at most 256 of them. -/
def sessionsOf (entries : List SessDir) : List SessDir :=
  (entries.filter (fun e => sessTag.isPrefixOf e.name)).take 256

/-- The collected sessions after `qsort(.., cmp_str)` (log.c line 227):
ascending by `strcmp` on the names. -/
def sortedSessionsOf (entries : List SessDir) : List SessDir :=
  (sessionsOf entries).mergeSort (fun a b => bytesLe a.name b.name)

/-- `log_prune_sessions` (log.c lines 200-255), as the sequence of
filesystem mutations it performs given the entries `readdir` yields (in
that order): collect up to 256 `session-` entries, do nothing when at
most `keep` were found, otherwise sort ascending by `strcmp` and remove
the first `count - keep`.  `keep` is non-negative at the only call site
(`LOG_MAX_SESSIONS`). -/
def log_prune_sessions (keep : Nat) (entries : List SessDir) :
    List FsAction :=
  if (sessionsOf entries).length ≤ keep then []
  else
    ((sortedSessionsOf entries).take
        ((sessionsOf entries).length - keep)).flatMap dirActions

/-- The directories an action sequence removes, in order. -/
def rmdirsOf (acts : List FsAction) : List (List Nat) :=
  acts.filterMap (fun a =>
    match a with
    | FsAction.rmdir d => some d
    | _ => none)

/-- A newline-closed log line produced by `log_write`: either blank, or a
timestamp prefix followed by at least one data byte. -/
def closedLineOK (l : List Entry) : Prop :=
  l = [] ∨ ∃ cs : List Nat, cs ≠ [] ∧ l = tsTok ++ cs.map Entry.ch

/-- The log writer's partial-line state machine invariant: every closed
line is blank or timestamped, and the trailing partial line of the file is
empty when the line buffer is empty and exactly one timestamp prefix when
it is not (buffered bytes reach the file only on flush). -/
def logInv (st : LogState) : Prop :=
  (∀ l ∈ (fileLines st.file).1, closedLineOK l) ∧
  (fileLines st.file).2 = (if st.linebuf = [] then [] else tsTok)

/-- A log line (possibly the trailing partial one) carrying at most its
content and one leading timestamp prefix: blank, or the timestamp prefix
followed by data bytes only, with exactly one timestamp in the line. -/
def lineOK (l : List Entry) : Prop :=
  l = [] ∨ ∃ cs : List Nat, l = tsTok ++ cs.map Entry.ch ∧
    l.count Entry.ts = 1

/-- A port whose board override is 48 lowercase letters: the boundary at
which the claimed 48-character truncation and the implemented
47-character truncation differ. -/
def overLongPort : TtyPort :=
  { ttyName := strL "ttyUSB7", interfaceNum := 0, known := none,
    boardOverride := some (List.replicate 48 'a') }

/-- A well-formed two-port daemon state used as a concrete witness. -/
def wfState2 : MonState :=
  { ports := [{ devPath := strL "/dev/a", fd := 3, yielded := false,
                evtIndex := 0, log := initLog },
              { devPath := strL "/dev/b", fd := 4, yielded := false,
                evtIndex := 1, log := initLog }],
    epoll := [(3, 0), (4, 1)], onlyFilter := [], running := true }

theorem wtStep_isOpen (st : LogState) (c : Nat) :
    (wtStep st c).isOpen = st.isOpen := by
  unfold wtStep flushNl emitTs
  dsimp only
  split_ifs <;> rfl

theorem logWriteAux_isOpen :
    ∀ (data : List Nat) (st : LogState),
      (logWriteAux st data).isOpen = st.isOpen
  | [], _ => rfl
  | c :: rest, st => by
    by_cases hc : c = 13
    · by_cases hh : rest.head? = some 10
      · rw [show logWriteAux st (c :: rest) = logWriteAux st rest by
          simp [logWriteAux, hc, hh]]
        exact logWriteAux_isOpen rest st
      · rw [show logWriteAux st (c :: rest) = logWriteAux (wtStep st 10) rest
          by simp [logWriteAux, hc, hh]]
        rw [logWriteAux_isOpen rest _, wtStep_isOpen]
    · rw [show logWriteAux st (c :: rest) = logWriteAux (wtStep st c) rest by
        simp [logWriteAux, hc]]
      rw [logWriteAux_isOpen rest _, wtStep_isOpen]

theorem foldl_pushEntry_nonl :
    ∀ (es : List Entry), (∀ e ∈ es, e ≠ Entry.nl) →
      ∀ (ls : List (List Entry)) (cur : List Entry),
        List.foldl pushEntry (ls, cur) es = (ls, cur ++ es)
  | [], _, ls, cur => by simp
  | e :: es, h, ls, cur => by
    have he : e ≠ Entry.nl := h e (by simp)
    have hr := foldl_pushEntry_nonl es (fun x hx => h x (by simp [hx]))
      ls (cur ++ [e])
    cases e with
    | nl => exact absurd rfl he
    | ts => simpa [pushEntry] using hr
    | ch b => simpa [pushEntry] using hr

theorem fileLines_append (f g : List Entry) :
    fileLines (f ++ g) = List.foldl pushEntry (fileLines f) g := by
  simp [fileLines, List.foldl_append]

theorem fileLines_append_nonl (f : List Entry) (es : List Entry)
    (h : ∀ e ∈ es, e ≠ Entry.nl) :
    fileLines (f ++ es) = ((fileLines f).1, (fileLines f).2 ++ es) := by
  rw [fileLines_append]
  rw [show fileLines f = ((fileLines f).1, (fileLines f).2) from rfl]
  exact foldl_pushEntry_nonl es h _ _

theorem tsTok_nonl : ∀ e ∈ tsTok, e ≠ Entry.nl := by decide

theorem mapch_nonl (buf : List Nat) : ∀ e ∈ buf.map Entry.ch, e ≠ Entry.nl := by
  intro e he
  rcases List.mem_map.mp he with ⟨x, _, rfl⟩
  intro hx
  cases hx

theorem fileLines_flush (f : List Entry) (buf : List Nat) :
    fileLines (f ++ buf.map Entry.ch ++ [Entry.nl]) =
      ((fileLines f).1 ++ [(fileLines f).2 ++ buf.map Entry.ch], []) := by
  have h1 : fileLines (f ++ buf.map Entry.ch)
      = ((fileLines f).1, (fileLines f).2 ++ buf.map Entry.ch) :=
    fileLines_append_nonl _ _ (mapch_nonl buf)
  rw [fileLines_append, h1]
  rfl

theorem logInv_init : logInv initLog := by
  constructor
  · intro l hl
    simp [fileLines, initLog] at hl
  · simp [fileLines, initLog]

theorem logInv_flushNl (st : LogState) (h : logInv st) :
    logInv (flushNl st) := by
  obtain ⟨h1, h2⟩ := h
  have hfl : fileLines (flushNl st).file
      = ((fileLines st.file).1
          ++ [(fileLines st.file).2 ++ st.linebuf.map Entry.ch], []) := by
    show fileLines (st.file ++ st.linebuf.map Entry.ch ++ [Entry.nl]) = _
    exact fileLines_flush _ _
  constructor
  · intro l hl
    rw [hfl] at hl
    simp only [List.mem_append, List.mem_singleton] at hl
    rcases hl with hl | hl
    · exact h1 l hl
    · subst hl
      rw [h2]
      by_cases hb : st.linebuf = []
      · simp [hb, closedLineOK]
      · exact Or.inr ⟨st.linebuf, hb, by simp [hb]⟩
  · rw [hfl]
    simp [flushNl]

theorem logInv_wtStep (st : LogState) (c : Nat) (h : logInv st) :
    logInv (wtStep st c) := by
  obtain ⟨h1, h2⟩ := h
  by_cases hc : c = 10
  · subst hc
    rw [show wtStep st 10 = flushNl st from by unfold wtStep; simp]
    exact logInv_flushNl st ⟨h1, h2⟩
  · by_cases hb : st.linebuf = []
    · have hw : wtStep st c = { st with file := st.file ++ tsTok,
                                        linebuf := [c] } := by
        unfold wtStep emitTs
        simp [hb, hc, LOG_LINE_BUF_SIZE]
      rw [hw]
      have hfl : fileLines (st.file ++ tsTok)
          = ((fileLines st.file).1, (fileLines st.file).2 ++ tsTok) :=
        fileLines_append_nonl _ _ tsTok_nonl
      constructor
      · intro l hl
        dsimp only at hl
        rw [hfl] at hl
        exact h1 l hl
      · dsimp only
        rw [hfl]
        simp [h2, hb]
    · have hlen0 : ¬ st.linebuf.length = 0 := by
        simpa [List.length_eq_zero] using hb
      by_cases hlt : st.linebuf.length < LOG_LINE_BUF_SIZE - 1
      · by_cases hfull :
            LOG_LINE_BUF_SIZE - 1 ≤ st.linebuf.length + 1
        · have hw : wtStep st c
              = flushNl { st with linebuf := st.linebuf ++ [c] } := by
            unfold wtStep
            simp [hlen0, hc, hlt, hfull]
          rw [hw]
          refine logInv_flushNl _ ⟨h1, ?_⟩
          simpa [hb] using h2
        · have hw : wtStep st c = { st with linebuf := st.linebuf ++ [c] } := by
            unfold wtStep
            simp [hlen0, hc, hlt, hfull]
          rw [hw]
          refine ⟨h1, ?_⟩
          simpa [hb] using h2
      · have hw : wtStep st c = flushNl st := by
          unfold wtStep
          simp [hlen0, hc, hlt, Nat.le_of_not_lt (by simpa using hlt)]
        rw [hw]
        exact logInv_flushNl st ⟨h1, h2⟩

theorem logInv_logWriteAux :
    ∀ (data : List Nat) (st : LogState), logInv st →
      logInv (logWriteAux st data)
  | [], _, h => h
  | c :: rest, st, h => by
    by_cases hc : c = 13
    · by_cases hh : rest.head? = some 10
      · rw [show logWriteAux st (c :: rest) = logWriteAux st rest by
          simp [logWriteAux, hc, hh]]
        exact logInv_logWriteAux rest st h
      · rw [show logWriteAux st (c :: rest) = logWriteAux (wtStep st 10) rest
          by simp [logWriteAux, hc, hh]]
        exact logInv_logWriteAux rest _ (logInv_wtStep st 10 h)
    · rw [show logWriteAux st (c :: rest) = logWriteAux (wtStep st c) rest by
        simp [logWriteAux, hc]]
      exact logInv_logWriteAux rest _ (logInv_wtStep st c h)

theorem count_ts_line (cs : List Nat) :
    (tsTok ++ cs.map Entry.ch).count Entry.ts = 1 := by
  rw [List.count_append]
  have h1 : tsTok.count Entry.ts = 1 := by decide
  have h2 : (cs.map Entry.ch).count Entry.ts = 0 := by
    rw [List.count_eq_zero]
    intro hmem
    rcases List.mem_map.mp hmem with ⟨x, _, hx⟩
    cases hx
  omega

theorem logInv_linesAll (st : LogState) (h : logInv st) :
    ∀ l ∈ linesAll st.file, lineOK l := by
  obtain ⟨h1, h2⟩ := h
  intro l hl
  simp only [linesAll, List.mem_append, List.mem_singleton] at hl
  rcases hl with hl | hl
  · rcases h1 l hl with he | ⟨cs, _, rfl⟩
    · exact Or.inl he
    · exact Or.inr ⟨cs, rfl, count_ts_line cs⟩
  · subst hl
    rw [h2]
    by_cases hb : st.linebuf = []
    · simp [hb, lineOK]
    · refine Or.inr ⟨[], by simp [hb], ?_⟩
      simp only [hb, if_neg, ite_false]
      decide

/-- Claim C1.  For every byte sequence passed to `log_write`: a 13 (`\r`)
immediately followed by a 10 (`\n`) is skipped; a bare 13 is treated as a
10; a 10 flushes the buffered partial line and emits one newline; any
other byte arriving on an empty line buffer first appends the
`[timestamp] ` prefix (`tsTok`) to the file and is then buffered.
Consequently every line of the output of `log_write` on a fresh log -- the
trailing partial line included -- is either blank or a single timestamp
prefix followed by data bytes only, carrying exactly one timestamp. -/
theorem c1_log_write_line_discipline (st : LogState) (c : Nat)
    (rest data : List Nat) :
    (logWriteAux st (13 :: 10 :: rest) = logWriteAux st (10 :: rest)) ∧
    (rest.head? ≠ some 10 →
      logWriteAux st (13 :: rest) = logWriteAux st (10 :: rest)) ∧
    (logWriteAux st (10 :: rest) = logWriteAux (flushNl st) rest) ∧
    (st.linebuf = [] → c ≠ 10 → c ≠ 13 →
      logWriteAux st (c :: rest) =
        logWriteAux { st with file := st.file ++ tsTok, linebuf := [c] }
          rest) ∧
    (∀ l ∈ linesAll ((log_write initLog data).file), lineOK l) := by
  refine ⟨?_, ?_, ?_, ?_, ?_⟩
  · simp [logWriteAux]
  · intro hh
    have hstep : wtStep st 10 = flushNl st := by unfold wtStep; simp
    simp [logWriteAux, hh]
  · have hstep : wtStep st 10 = flushNl st := by unfold wtStep; simp
    simp [logWriteAux, hstep]
  · intro hb hc10 hc13
    have hstep : wtStep st c = { st with file := st.file ++ tsTok,
                                         linebuf := [c] } := by
      unfold wtStep emitTs
      simp [hb, hc10, LOG_LINE_BUF_SIZE]
    simp [logWriteAux, hc13, hstep]
  · have h0 : log_write initLog data = logWriteAux initLog data := by
      simp [log_write, initLog]
    rw [h0]
    exact logInv_linesAll _ (logInv_logWriteAux data initLog logInv_init)

/-- Witness for C1 at concrete inputs discharging each hypothesis. -/
theorem c1_log_write_line_discipline_witness :
    (logWriteAux initLog [13]
      = logWriteAux initLog [10]) ∧
    (logWriteAux initLog [65]
      = logWriteAux { initLog with file := initLog.file ++ tsTok,
                                   linebuf := [65] } []) := by
  have h := c1_log_write_line_discipline initLog 65 [] [65, 13, 10]
  exact ⟨h.2.1 (by decide), h.2.2.2.1 rfl (by decide) (by decide)⟩

/-- Counterexample to claim C2 as stated: splitting the byte sequence
`[13, 10]` (one `\r\n` terminator) between two `log_write` calls does not
produce the state a single call produces -- the lookahead that skips the
13 only sees the current call's buffer, so the pair yields two newlines
and `bytes_written = 2` instead of one newline and `bytes_written = 1`. -/
theorem c2_split_counterexample :
    log_write (log_write initLog [13]) [10] ≠ log_write initLog [13, 10] ∧
    (log_write (log_write initLog [13]) [10]).file
      = [Entry.nl, Entry.nl] ∧
    (log_write initLog [13, 10]).file = [Entry.nl] := by
  refine ⟨by decide, by decide, by decide⟩

theorem logWriteAux_split :
    ∀ (s1 : List Nat) (st : LogState) (s2 : List Nat),
      ¬(s1.getLast? = some 13 ∧ s2.head? = some 10) →
      logWriteAux st (s1 ++ s2) = logWriteAux (logWriteAux st s1) s2
  | [], _, _, _ => rfl
  | [c], st, s2, h => by
    by_cases hc : c = 13
    · subst hc
      have hh : ¬ s2.head? = some 10 := fun hx => h ⟨rfl, hx⟩
      simp [logWriteAux, hh]
    · simp [logWriteAux, hc]
  | c :: d :: s1, st, s2, h => by
    have hlast : (c :: d :: s1).getLast? = (d :: s1).getLast? :=
      List.getLast?_cons_cons
    have h' : ¬((d :: s1).getLast? = some 13 ∧ s2.head? = some 10) := by
      rw [← hlast]; exact h
    have hh : ((d :: s1) ++ s2).head? = some d := rfl
    by_cases hc : c = 13
    · by_cases hd : d = 10
      · rw [show (c :: d :: s1) ++ s2 = c :: ((d :: s1) ++ s2) from rfl]
        rw [show logWriteAux st (c :: ((d :: s1) ++ s2))
            = logWriteAux st ((d :: s1) ++ s2) from by
          simp [logWriteAux, hc, hh, hd]]
        rw [show logWriteAux st (c :: d :: s1) = logWriteAux st (d :: s1)
          from by simp [logWriteAux, hc, hd]]
        exact logWriteAux_split (d :: s1) st s2 h'
      · rw [show (c :: d :: s1) ++ s2 = c :: ((d :: s1) ++ s2) from rfl]
        rw [show logWriteAux st (c :: ((d :: s1) ++ s2))
            = logWriteAux (wtStep st 10) ((d :: s1) ++ s2) from by
          simp [logWriteAux, hc, hh, hd]]
        rw [show logWriteAux st (c :: d :: s1)
            = logWriteAux (wtStep st 10) (d :: s1) from by
          simp [logWriteAux, hc, hd]]
        exact logWriteAux_split (d :: s1) _ s2 h'
    · rw [show (c :: d :: s1) ++ s2 = c :: ((d :: s1) ++ s2) from rfl]
      rw [show logWriteAux st (c :: ((d :: s1) ++ s2))
          = logWriteAux (wtStep st c) ((d :: s1) ++ s2) from by
        simp [logWriteAux, hc]]
      rw [show logWriteAux st (c :: d :: s1)
          = logWriteAux (wtStep st c) (d :: s1) from by
        simp [logWriteAux, hc]]
      exact logWriteAux_split (d :: s1) _ s2 h'

/-- Claim C2, amended.  Calling `log_write` on `s1` and then on `s2`
produces the same state (file content and `bytes_written` included) as the
single call on `s1 ++ s2`, provided the split does not separate a 13
(`\r`) at the end of `s1` from a 10 (`\n`) at the start of `s2`.  (When it
does, the pair produces two line boundaries instead of one, as the
counterexample shows.) -/
theorem c2_log_write_split (st : LogState) (s1 s2 : List Nat)
    (h : ¬(s1.getLast? = some 13 ∧ s2.head? = some 10)) :
    log_write (log_write st s1) s2 = log_write st (s1 ++ s2) := by
  by_cases ho : st.isOpen
  · have h1 : log_write st s1 = logWriteAux st s1 := by simp [log_write, ho]
    have ho2 : (logWriteAux st s1).isOpen = true := by
      rw [logWriteAux_isOpen]; exact ho
    simp [log_write, ho, h1, ho2]
    exact (logWriteAux_split s1 st s2 h).symm
  · have ho' : st.isOpen = false := by simpa using ho
    simp [log_write, ho']

/-- Witness for the amended C2 at a concrete split. -/
theorem c2_log_write_split_witness :
    log_write (log_write initLog [65, 13]) [66, 10]
      = log_write initLog [65, 13, 66, 10] :=
  c2_log_write_split initLog [65, 13] [66, 10] (by decide)

/-- Claim C7.  During `log_write`, a non-newline byte that brings the line
buffer up to `LOG_LINE_BUF_SIZE - 1` (2047) buffered bytes causes the
buffer to be written to the file followed by a forced newline and reset to
empty (with `bytes_written` advanced by the 2048 bytes written); and the
remainder of the over-long line starts a new line whose timestamp prefix
is written when its first non-newline byte arrives on the now-empty
buffer. -/
theorem c7_forced_flush (st : LogState) (c : Nat) (rest : List Nat) :
    (st.linebuf.length = LOG_LINE_BUF_SIZE - 2 → c ≠ 10 → c ≠ 13 →
      logWriteAux st (c :: rest) =
        logWriteAux
          { st with
              file := st.file ++ (st.linebuf ++ [c]).map Entry.ch
                        ++ [Entry.nl],
              bytesWritten := st.bytesWritten + LOG_LINE_BUF_SIZE,
              linebuf := [] } rest) ∧
    (st.linebuf = [] → c ≠ 10 → c ≠ 13 →
      logWriteAux st (c :: rest) =
        logWriteAux { st with file := st.file ++ tsTok, linebuf := [c] }
          rest) := by
  constructor
  · intro hlen hc10 hc13
    have hne : ¬ st.linebuf.length = 0 := by
      rw [hlen]; decide
    have hstep : wtStep st c =
        { st with
            file := st.file ++ (st.linebuf ++ [c]).map Entry.ch
                      ++ [Entry.nl],
            bytesWritten := st.bytesWritten + LOG_LINE_BUF_SIZE,
            linebuf := [] } := by
      unfold wtStep flushNl
      simp [hne, hc10, hlen, LOG_LINE_BUF_SIZE]
    simp [logWriteAux, hc13, hstep]
  · intro hb hc10 hc13
    have hstep : wtStep st c = { st with file := st.file ++ tsTok,
                                         linebuf := [c] } := by
      unfold wtStep emitTs
      simp [hb, hc10, LOG_LINE_BUF_SIZE]
    simp [logWriteAux, hc13, hstep]

/-- Witness for C7: a buffer of 2046 bytes receiving one more byte is
flushed with a forced newline; the next byte then opens a fresh
timestamped line. -/
theorem c7_forced_flush_witness :
    (logWriteAux
        { isOpen := true, file := [], linebuf := List.replicate 2046 65,
          bytesWritten := 0 } [66] =
      logWriteAux
        { isOpen := true,
          file := ([] : List Entry)
                    ++ (List.replicate 2046 65 ++ [66]).map Entry.ch
                    ++ [Entry.nl],
          bytesWritten := 0 + LOG_LINE_BUF_SIZE, linebuf := [] } []) ∧
    (logWriteAux initLog [67] =
      logWriteAux { initLog with file := initLog.file ++ tsTok,
                                 linebuf := [67] } []) := by
  constructor
  · exact (c7_forced_flush
      { isOpen := true, file := [], linebuf := List.replicate 2046 65,
        bytesWritten := 0 } 66 []).1
      (by rw [List.length_replicate, LOG_LINE_BUF_SIZE]) (by decide)
      (by decide)
  · exact (c7_forced_flush initLog 67 []).2 rfl (by decide) (by decide)

/-- Claim C10.  `log_marker` on a state with a non-empty line buffer
writes the buffered bytes plus a terminating newline to the file (then the
marker text) but leaves `bytes_written` unchanged, while `log_flush` on
the same state adds buffered length + 1; hence after a marker the
`bytes_logged` value that `write_status_json` reports undercounts the
bytes in the file, compared with the flush path, whenever a marker
interrupts a partial line. -/
theorem c10_marker_bytes_not_counted (st : LogState) (msg : List Nat)
    (ho : st.isOpen = true) :
    (log_marker st msg).bytesWritten = st.bytesWritten ∧
    (log_marker st msg).file
      = st.file ++ bufDump st.linebuf ++ markerText msg ∧
    (st.linebuf ≠ [] →
      (log_flush st).bytesWritten
        = st.bytesWritten + st.linebuf.length + 1) ∧
    (st.linebuf ≠ [] →
      statusBytesLogged (log_marker st msg)
        < statusBytesLogged (log_flush st)) := by
  refine ⟨?_, ?_, ?_, ?_⟩
  · simp [log_marker, ho]
  · simp [log_marker, ho]
  · intro hb
    simp [log_flush, ho, hb, flushNl]
  · intro hb
    have h1 : statusBytesLogged (log_marker st msg) = st.bytesWritten := by
      simp [statusBytesLogged, log_marker, ho]
    have h2 : statusBytesLogged (log_flush st)
        = st.bytesWritten + st.linebuf.length + 1 := by
      simp [statusBytesLogged, log_flush, ho, hb, flushNl]
    rw [h1, h2]
    omega

/-- Witness for C10 on a one-byte partial line. -/
theorem c10_marker_bytes_not_counted_witness :
    (log_marker { isOpen := true, file := [], linebuf := [65],
                  bytesWritten := 7 } [80]).bytesWritten = 7 ∧
    statusBytesLogged (log_marker { isOpen := true, file := [],
                                    linebuf := [65], bytesWritten := 7 } [80])
      < statusBytesLogged (log_flush { isOpen := true, file := [],
                                       linebuf := [65], bytesWritten := 7 }) := by
  have h := c10_marker_bytes_not_counted
    { isOpen := true, file := [], linebuf := [65], bytesWritten := 7 }
    [80] (by decide)
  exact ⟨h.1, h.2.2.2 (by decide)⟩

theorem natDecAux_length :
    ∀ (f n k : Nat), n < 10 ^ k → (natDecAux f n).length ≤ k
  | 0, _, _, _ => by simp [natDecAux]
  | f + 1, n, k, h => by
    by_cases hn : n = 0
    · simp [natDecAux, hn]
    · cases k with
      | zero =>
        exact absurd (by omega : n = 0) hn
      | succ k =>
        have hd : n / 10 < 10 ^ k := by
          have hp : (10:Nat) ^ (k + 1) = 10 ^ k * 10 := pow_succ 10 k
          have := (Nat.div_lt_iff_lt_mul (by omega : 0 < 10)).mpr
            (by omega : n < 10 ^ k * 10)
          exact this
        have hr := natDecAux_length f (n / 10) k hd
        calc (natDecAux (f + 1) n).length
            = (natDecAux f (n / 10)).length + 1 := by
              simp [natDecAux, hn]
          _ ≤ k + 1 := by omega

theorem natDec_length (n k : Nat) (hk : 1 ≤ k) (h : n < 10 ^ k) :
    (natDec n).length ≤ k := by
  by_cases hn : n = 0
  · simp [natDec, hn]
    omega
  · simp only [natDec, hn, if_neg, ite_false]
    exact natDecAux_length n n k h

theorem intDec_length (i : Int) (h1 : -(2 ^ 31) ≤ i) (h2 : i < 2 ^ 31) :
    (intDec i).length ≤ 11 := by
  have h10 : (10:Nat) ^ 10 = 10000000000 := by norm_num
  by_cases hi : i < 0
  · have hn : (-i).toNat < 10 ^ 10 := by
      rw [h10]; omega
    have := natDec_length (-i).toNat 10 (by omega) hn
    simp only [intDec, hi, if_pos, ite_true, List.length_cons]
    omega
  · have hn : i.toNat < 10 ^ 10 := by
      rw [h10]; omega
    have := natDec_length i.toNat 10 (by omega) hn
    simp only [intDec, hi, if_neg, ite_false]
    omega

theorem upperUnderscore_take (b : List Char) (n : Nat) :
    upperUnderscore (b.take n) = (upperUnderscore b).take n := by
  simp [upperUnderscore, List.map_take]

theorem trunc_board (b : List Char) :
    (upperUnderscore (b.take 47)).take 48 = (upperUnderscore b).take 47 := by
  rw [upperUnderscore_take]
  apply List.take_of_length_le
  simp [List.length_take]

theorem board47_length (b : List Char) :
    ((upperUnderscore b).take 47).length ≤ 47 := by
  simp [List.length_take]

theorem label_no_override_eq (p : TtyPort)
    (h1 : -(2 ^ 31) ≤ p.interfaceNum) (h2 : p.interfaceNum < 2 ^ 31)
    (h3 : p.ttyName.length ≤ 31) :
    get_device_label_no_override p = labelSpec47_no_override p := by
  have hdec := intDec_length p.interfaceNum h1 h2
  obtain ⟨tty, iface, known, override⟩ := p
  dsimp only at hdec h3
  cases known with
  | none =>
    dsimp only [get_device_label_no_override, labelSpec47_no_override]
    exact List.take_of_length_le (by omega)
  | some kd =>
    obtain ⟨kvid, kpid, kname, kexp, kboards⟩ := kd
    cases kboards with
    | nil =>
      dsimp only [get_device_label_no_override, labelSpec47_no_override,
        List.head?]
      exact List.take_of_length_le (by omega)
    | cons b bs =>
      dsimp only [get_device_label_no_override, labelSpec47_no_override,
        List.head?]
      have hb := board47_length b
      have h5 : (strL "_UART").length = 5 := by decide
      by_cases hmulti : 1 < kexp
      · rw [if_pos hmulti, if_pos hmulti, trunc_board]
        apply List.take_of_length_le
        simp only [List.length_append]
        omega
      · rw [if_neg hmulti, if_neg hmulti, trunc_board]
        apply List.take_of_length_le
        simp only [List.length_append]
        omega

/-- Claim C3, amended.  `get_device_label` assigns the label by the
claimed priority (board override; else first candidate board of the known
device, with the interface index appended exactly when
`expected_ports > 1`; else the bare tty name), with spaces mapped to
underscores and lowercase ASCII uppercased -- but the transformed board
name is truncated to 47 characters (the 48-byte `strlcpy_safe` buffer
keeps 47 characters plus the NUL), not 48.  The hypotheses record that
`interface_num` is a C `int` and `tty_name` a `char[32]`. -/
theorem c3_get_device_label (p : TtyPort)
    (h1 : -(2 ^ 31) ≤ p.interfaceNum) (h2 : p.interfaceNum < 2 ^ 31)
    (h3 : p.ttyName.length ≤ 31) :
    get_device_label p = labelSpec47 p := by
  have hdec := intDec_length p.interfaceNum h1 h2
  have hno := label_no_override_eq p h1 h2 h3
  obtain ⟨tty, iface, known, override⟩ := p
  dsimp only at hdec h3
  cases override with
  | none =>
    dsimp only [get_device_label, labelSpec47]
    exact hno
  | some b =>
    dsimp only [get_device_label, labelSpec47]
    by_cases hb : b = []
    · rw [if_neg (by simpa using hb), if_neg (by simpa using hb)]
      exact hno
    · rw [if_pos (by simpa using hb), if_pos (by simpa using hb),
        trunc_board]
      apply List.take_of_length_le
      have := board47_length b
      have h5 : (strL "_UART").length = 5 := by decide
      simp only [List.length_append]
      omega

/-- Counterexample to claim C3 as stated: with a 48-character board
override the code produces 47 transformed characters before `"_UART0"`,
not the 48 the claim's truncation bound predicts. -/
theorem c3_get_device_label_counterexample :
    get_device_label overLongPort ≠ labelSpec48 overLongPort ∧
    get_device_label overLongPort
      = List.replicate 47 'A' ++ strL "_UART0" ∧
    labelSpec48 overLongPort = List.replicate 48 'A' ++ strL "_UART0" := by
  refine ⟨by decide, by decide, by decide⟩

/-- Witness for the amended C3 at the repository's own test input
(`test_get_device_label_override`): board override "ZynqMP ZCU102" on
interface 0 yields "ZYNQMP_ZCU102_UART0". -/
theorem c3_get_device_label_witness :
    get_device_label
        { ttyName := strL "ttyUSB4", interfaceNum := 0,
          known := some { vid := 4292, pid := 60017,
                          name := strL "Silicon Labs CP210x",
                          expectedPorts := 4,
                          boards := [strL "PolarFire SoC"] },
          boardOverride := some (strL "ZynqMP ZCU102") }
      = labelSpec47
        { ttyName := strL "ttyUSB4", interfaceNum := 0,
          known := some { vid := 4292, pid := 60017,
                          name := strL "Silicon Labs CP210x",
                          expectedPorts := 4,
                          boards := [strL "PolarFire SoC"] },
          boardOverride := some (strL "ZynqMP ZCU102") } ∧
    labelSpec47
        { ttyName := strL "ttyUSB4", interfaceNum := 0,
          known := some { vid := 4292, pid := 60017,
                          name := strL "Silicon Labs CP210x",
                          expectedPorts := 4,
                          boards := [strL "PolarFire SoC"] },
          boardOverride := some (strL "ZynqMP ZCU102") }
      = strL "ZYNQMP_ZCU102_UART0" := by
  constructor
  · exact c3_get_device_label _ (by decide) (by decide) (by decide)
  · decide

theorem shiftPorts_fst_paths :
    ∀ (rest : List MPort) (i : Nat) (e : List (Int × Nat)),
      ((shiftPorts rest i e).1).map (fun p => p.devPath)
        = rest.map (fun p => p.devPath)
  | [], _, _ => rfl
  | p :: rest, i, e => by
    simp only [shiftPorts, List.map_cons]
    refine congrArg _ ?_
    exact shiftPorts_fst_paths rest (i + 1) _

theorem paths_nodup_take_shift (st : MonState) (idx : Nat)
    (hlt : idx < st.ports.length) (e0 : List (Int × Nat))
    (h : (st.ports.map (fun p => p.devPath)).Nodup) :
    ((st.ports.take idx
        ++ (shiftPorts (st.ports.drop (idx + 1)) idx e0).1).map
          (fun p => p.devPath)).Nodup := by
  have hsplit : st.ports
      = st.ports.take idx
        ++ st.ports.get ⟨idx, hlt⟩ :: st.ports.drop (idx + 1) := by
    conv_lhs => rw [← List.take_append_drop idx st.ports]
    rw [List.drop_eq_get_cons hlt]
  have hsub : ((st.ports.take idx
        ++ (shiftPorts (st.ports.drop (idx + 1)) idx e0).1).map
          (fun p => p.devPath)).Sublist
      (st.ports.map (fun p => p.devPath)) := by
    rw [List.map_append, shiftPorts_fst_paths]
    conv_rhs => rw [hsplit]
    rw [List.map_append, List.map_cons]
    exact List.Sublist.append_left (List.sublist_cons_self _ _) _
  exact List.Nodup.sublist hsub h

theorem remove_port_paths_nodup (st : MonState) (idx : Nat)
    (h : (st.ports.map (fun p => p.devPath)).Nodup) :
    (((remove_port st idx).ports).map (fun p => p.devPath)).Nodup := by
  unfold remove_port
  split
  · next hlt => exact paths_nodup_take_shift st idx hlt _ h
  · exact h

theorem add_port_paths_nodup (st : MonState) (dev : List Char)
    (serialFd : Option Int) (logOk epollOk : Bool)
    (h : (st.ports.map (fun p => p.devPath)).Nodup) :
    (((add_port st dev serialFd logOk epollOk).1.ports).map
      (fun p => p.devPath)).Nodup := by
  by_cases h1 : MAX_PORTS ≤ st.ports.length
  · simpa [add_port, h1] using h
  · by_cases h2 : port_matches_filter dev st.onlyFilter = true
    · by_cases h3 : st.ports.any (fun p => p.devPath == dev) = true
      · simpa [add_port, h1, h2, h3] using h
      · cases serialFd with
        | none => simpa [add_port, h1, h2, h3] using h
        | some fd =>
          by_cases hl : logOk = false
          · simpa [add_port, h1, h2, h3, hl] using h
          · by_cases he : epollOk = false
            · simpa [add_port, h1, h2, h3, hl, he] using h
            · have hres : (add_port st dev (some fd) logOk epollOk).1.ports
                  = st.ports ++ [newMPort dev fd st.ports.length] := by
                simp [add_port, h1, h2, h3, hl, he]
              rw [hres]
              have hdev : dev ∉ st.ports.map (fun p => p.devPath) := by
                intro hmem
                rcases List.mem_map.mp hmem with ⟨q, hq, hqd⟩
                have hany : st.ports.any (fun p => p.devPath == dev)
                    = true := by
                  rw [List.any_eq_true]
                  exact ⟨q, hq, by simp [hqd]⟩
                exact h3 hany
              rw [List.map_append, List.nodup_append]
              refine ⟨h, by simp, ?_⟩
              intro a ha hb
              simp [newMPort] at hb
              subst hb
              exact hdev ha
    · simpa [add_port, h1, h2] using h

theorem runOps_paths_nodup :
    ∀ (ops : List MOp) (st : MonState),
      (st.ports.map (fun p => p.devPath)).Nodup →
      (((runOps st ops).ports).map (fun p => p.devPath)).Nodup
  | [], _, h => h
  | op :: ops, st, h => by
    have hstep : ((monStep st op).ports.map (fun p => p.devPath)).Nodup := by
      cases op with
      | add dev sfd l e => exact add_port_paths_nodup st dev sfd l e h
      | remove i => exact remove_port_paths_nodup st i h
    exact runOps_paths_nodup ops (monStep st op) hstep

/-- Claim C5.  `add_port` returns failure with the state unchanged when
the `MAX_PORTS` ceiling is reached, when the device filter excludes the
path, or when a port with the same `dev_path` is already present; and for
every sequence of `add_port`/`remove_port` operations from the initial
state, the monitored `dev_path`s remain pairwise distinct (at most one
monitored port per `dev_path` at any time, every intermediate state being
reached by some prefix of operations). -/
theorem c5_add_port_refusals_and_uniqueness (st : MonState)
    (dev : List Char) (serialFd : Option Int) (logOk epollOk : Bool)
    (f : List Char) (ops : List MOp) :
    (MAX_PORTS ≤ st.ports.length →
      add_port st dev serialFd logOk epollOk = (st, none)) ∧
    (port_matches_filter dev st.onlyFilter = false →
      add_port st dev serialFd logOk epollOk = (st, none)) ∧
    (st.ports.any (fun p => p.devPath == dev) = true →
      add_port st dev serialFd logOk epollOk = (st, none)) ∧
    (((runOps (initMon f) ops).ports).map (fun p => p.devPath)).Nodup := by
  refine ⟨?_, ?_, ?_, ?_⟩
  · intro h
    simp [add_port, h]
  · intro h
    by_cases h1 : MAX_PORTS ≤ st.ports.length
    · simp [add_port, h1]
    · simp [add_port, h1, h]
  · intro h
    by_cases h1 : MAX_PORTS ≤ st.ports.length
    · simp [add_port, h1]
    · by_cases h2 : port_matches_filter dev st.onlyFilter
      · simp [add_port, h1, h2, h]
      · simp [add_port, h1, h2]
  · exact runOps_paths_nodup ops (initMon f) (by simp [initMon])

/-- Witness for C5: a full table that also contains the device and a
filter that excludes it (each refusal hypothesis discharged), plus a
concrete operation sequence with a duplicate add and a removal. -/
theorem c5_add_port_refusals_and_uniqueness_witness :
    (add_port
        { ports := List.replicate 64 (newMPort (strL "/dev/ttyUSB0") 3 0),
          epoll := [], onlyFilter := strL "ttyUSB9", running := true }
        (strL "/dev/ttyUSB0") (some 5) true true
      = ({ ports := List.replicate 64 (newMPort (strL "/dev/ttyUSB0") 3 0),
           epoll := [], onlyFilter := strL "ttyUSB9", running := true },
         none)) ∧
    (((runOps (initMon [])
        [MOp.add (strL "/dev/a") (some 3) true true,
         MOp.add (strL "/dev/a") (some 4) true true,
         MOp.add (strL "/dev/b") (some 5) true true,
         MOp.remove 0]).ports).map (fun p => p.devPath)).Nodup := by
  have h := c5_add_port_refusals_and_uniqueness
    { ports := List.replicate 64 (newMPort (strL "/dev/ttyUSB0") 3 0),
      epoll := [], onlyFilter := strL "ttyUSB9", running := true }
    (strL "/dev/ttyUSB0") (some 5) true true []
    [MOp.add (strL "/dev/a") (some 3) true true,
     MOp.add (strL "/dev/a") (some 4) true true,
     MOp.add (strL "/dev/b") (some 5) true true,
     MOp.remove 0]
  exact ⟨h.1 (by simp [MAX_PORTS]), h.2.2.2⟩

theorem monActive_iff (p : MPort) :
    monActive p = true ↔ (0 ≤ p.fd ∧ p.yielded = false) := by
  simp [monActive]

theorem monFds_append (xs ys : List MPort) :
    monFds (xs ++ ys) = monFds xs ++ monFds ys := by
  simp [monFds, List.filterMap_append]

theorem monFds_cons_active (p : MPort) (ps : List MPort)
    (h : monActive p = true) : monFds (p :: ps) = p.fd :: monFds ps := by
  simp [monFds, List.filterMap_cons, h]

theorem monFds_cons_inactive (p : MPort) (ps : List MPort)
    (h : monActive p = false) : monFds (p :: ps) = monFds ps := by
  simp [monFds, List.filterMap_cons, h]

theorem regsFrom_cons_active (p : MPort) (ps : List MPort) (i : Nat)
    (h : monActive p = true) :
    regsFrom i (p :: ps) = (p.fd, i) :: regsFrom (i + 1) ps := by
  simp [regsFrom, h]

theorem regsFrom_cons_inactive (p : MPort) (ps : List MPort) (i : Nat)
    (h : monActive p = false) :
    regsFrom i (p :: ps) = regsFrom (i + 1) ps := by
  simp [regsFrom, h]

theorem regsFrom_append :
    ∀ (xs : List MPort) (i : Nat) (ys : List MPort),
      regsFrom i (xs ++ ys) = regsFrom i xs ++ regsFrom (i + xs.length) ys
  | [], i, ys => by simp [regsFrom]
  | p :: xs, i, ys => by
    have ih := regsFrom_append xs (i + 1) ys
    rw [show i + 1 + xs.length = i + (xs.length + 1) from by omega] at ih
    simp only [List.cons_append, regsFrom, List.length_cons, List.append_eq]
    rw [ih, List.append_assoc]

theorem regsFrom_bound :
    ∀ (ps : List MPort) (i : Nat) (r : Int × Nat),
      r ∈ regsFrom i ps → r.2 < i + ps.length
  | [], _, _, h => by simp [regsFrom] at h
  | p :: ps, i, r, h => by
    by_cases hm : monActive p = true
    · rw [regsFrom_cons_active p ps i hm] at h
      rcases List.mem_cons.mp h with h | h
      · rw [h]
        dsimp only
        simp only [List.length_cons]
        omega
      · have := regsFrom_bound ps (i + 1) r h
        simp only [List.length_cons]
        omega
    · rw [Bool.not_eq_true] at hm
      rw [regsFrom_cons_inactive p ps i hm] at h
      have := regsFrom_bound ps (i + 1) r h
      simp only [List.length_cons]
      omega

theorem regsFrom_fst_mem :
    ∀ (ps : List MPort) (i : Nat) (r : Int × Nat),
      r ∈ regsFrom i ps → r.1 ∈ monFds ps
  | [], _, _, h => by simp [regsFrom] at h
  | p :: ps, i, r, h => by
    by_cases hm : monActive p = true
    · rw [regsFrom_cons_active p ps i hm] at h
      rw [monFds_cons_active p ps hm]
      rcases List.mem_cons.mp h with h | h
      · rw [h]
        exact List.mem_cons_self _ _
      · exact List.mem_cons_of_mem _ (regsFrom_fst_mem ps (i + 1) r h)
    · rw [Bool.not_eq_true] at hm
      rw [regsFrom_cons_inactive p ps i hm] at h
      rw [monFds_cons_inactive p ps hm]
      exact regsFrom_fst_mem ps (i + 1) r h

theorem epollMod_append (a b : List (Int × Nat)) (fd : Int) (i : Nat) :
    epollMod (a ++ b) fd i = epollMod a fd i ++ epollMod b fd i := by
  simp [epollMod]

theorem epollMod_cons (r : Int × Nat) (e : List (Int × Nat)) (fd : Int)
    (i : Nat) :
    epollMod (r :: e) fd i
      = (if r.1 = fd then (fd, i) else r) :: epollMod e fd i := by
  simp [epollMod]

theorem epollMod_of_not_mem :
    ∀ (e : List (Int × Nat)) (fd : Int) (i : Nat),
      (∀ r ∈ e, r.1 ≠ fd) → epollMod e fd i = e
  | [], _, _, _ => rfl
  | r :: e, fd, i, h => by
    have hr : r.1 ≠ fd := h r (List.mem_cons_self _ _)
    simp only [epollMod, List.map_cons, if_neg hr]
    have := epollMod_of_not_mem e fd i (fun q hq => h q (List.mem_cons_of_mem _ hq))
    simp only [epollMod] at this
    rw [this]

theorem epollDel_append (a b : List (Int × Nat)) (fd : Int) :
    epollDel (a ++ b) fd = epollDel a fd ++ epollDel b fd := by
  simp [epollDel]

theorem epollDel_of_not_mem :
    ∀ (e : List (Int × Nat)) (fd : Int),
      (∀ r ∈ e, r.1 ≠ fd) → epollDel e fd = e
  | [], _, _ => rfl
  | r :: e, fd, h => by
    have hr : r.1 ≠ fd := h r (List.mem_cons_self _ _)
    have htail :=
      epollDel_of_not_mem e fd (fun q hq => h q (List.mem_cons_of_mem _ hq))
    simp only [epollDel] at htail ⊢
    rw [List.filter_cons, if_pos (by simpa using hr), htail]

theorem shiftPorts_fst_idx :
    ∀ (rest : List MPort) (i : Nat) (e : List (Int × Nat)),
      idxFromB i (shiftPorts rest i e).1 = true
  | [], _, _ => rfl
  | p :: rest, i, e => by
    simp only [shiftPorts, idxFromB, beq_self_eq_true, Bool.true_and]
    exact shiftPorts_fst_idx rest (i + 1) _

theorem shiftPorts_fst_length :
    ∀ (rest : List MPort) (i : Nat) (e : List (Int × Nat)),
      (shiftPorts rest i e).1.length = rest.length
  | [], _, _ => rfl
  | p :: rest, i, e => by
    simp only [shiftPorts, List.length_cons]
    rw [shiftPorts_fst_length rest (i + 1) _]

theorem idxFromB_append :
    ∀ (xs : List MPort) (i : Nat) (ys : List MPort),
      idxFromB i (xs ++ ys)
        = (idxFromB i xs && idxFromB (i + xs.length) ys)
  | [], i, ys => by simp [idxFromB]
  | p :: xs, i, ys => by
    have ih := idxFromB_append xs (i + 1) ys
    rw [show i + 1 + xs.length = i + (xs.length + 1) from by omega] at ih
    simp only [List.cons_append, idxFromB, List.length_cons, List.append_eq]
    rw [ih, Bool.and_assoc]

theorem shiftPorts_snd_spec :
    ∀ (rest : List MPort) (i : Nat) (pre : List (Int × Nat)),
      (monFds rest).Nodup →
      (∀ r ∈ pre, r.1 ∉ monFds rest) →
      (shiftPorts rest i (pre ++ regsFrom (i + 1) rest)).2
        = pre ++ regsFrom i rest
  | [], i, pre, _, _ => rfl
  | p :: rest, i, pre, hnd, hpre => by
    by_cases hm : monActive p = true
    · have hcond : 0 ≤ p.fd ∧ p.yielded = false := (monActive_iff p).mp hm
      have hfds : monFds (p :: rest) = p.fd :: monFds rest :=
        monFds_cons_active p rest hm
      rw [hfds] at hnd hpre
      have hnotin : p.fd ∉ monFds rest := (List.nodup_cons.mp hnd).1
      have hndrest : (monFds rest).Nodup := (List.nodup_cons.mp hnd).2
      have he : pre ++ regsFrom (i + 1) (p :: rest)
          = pre ++ (p.fd, i + 1) :: regsFrom (i + 2) rest := by
        rw [regsFrom_cons_active p rest (i + 1) hm]
      have hpre' : epollMod pre p.fd i = pre :=
        epollMod_of_not_mem pre p.fd i
          (fun r hr hEq => hpre r hr (by rw [hEq]; exact List.mem_cons_self _ _))
      have htail : epollMod (regsFrom (i + 2) rest) p.fd i
          = regsFrom (i + 2) rest :=
        epollMod_of_not_mem _ p.fd i
          (fun r hr hEq => hnotin (hEq ▸ regsFrom_fst_mem rest (i + 2) r hr))
      have hmod : epollMod (pre ++ (p.fd, i + 1) :: regsFrom (i + 2) rest)
            p.fd i
          = (pre ++ [(p.fd, i)]) ++ regsFrom (i + 2) rest := by
        rw [epollMod_append, epollMod_cons, if_pos rfl, hpre', htail]
        simp
      have hrec := shiftPorts_snd_spec rest (i + 1) (pre ++ [(p.fd, i)])
        hndrest
        (by
          intro r hr
          rcases List.mem_append.mp hr with hr | hr
          · exact fun hmem => hpre r hr (List.mem_cons_of_mem _ hmem)
          · rcases List.mem_singleton.mp hr with rfl
            exact hnotin)
      simp only [shiftPorts, if_pos hcond]
      rw [he, hmod]
      rw [show (pre ++ [(p.fd, i)]) ++ regsFrom (i + 2) rest
          = (pre ++ [(p.fd, i)]) ++ regsFrom ((i + 1) + 1) rest from rfl]
      rw [hrec]
      rw [regsFrom_cons_active p rest i hm]
      simp
    · rw [Bool.not_eq_true] at hm
      have hcond : ¬(0 ≤ p.fd ∧ p.yielded = false) := by
        intro hc
        rw [(monActive_iff p).mpr hc] at hm
        cases hm
      have hfds : monFds (p :: rest) = monFds rest :=
        monFds_cons_inactive p rest hm
      rw [hfds] at hnd hpre
      have he : pre ++ regsFrom (i + 1) (p :: rest)
          = pre ++ regsFrom (i + 2) rest := by
        rw [regsFrom_cons_inactive p rest (i + 1) hm]
      have hrec := shiftPorts_snd_spec rest (i + 1) pre hnd hpre
      simp only [shiftPorts, if_neg hcond]
      rw [he]
      rw [show pre ++ regsFrom (i + 2) rest
          = pre ++ regsFrom ((i + 1) + 1) rest from rfl]
      rw [hrec]
      rw [regsFrom_cons_inactive p rest i hm]

/-- Claim C4.  On a well-formed state with `idx < port_count`,
`remove_port idx` decreases the port count by exactly one, leaves every
retained entry's event-source tag index equal to its new slot position,
and leaves no serial registration in the readiness facility referencing
the freed slot (every registered index is below the new count). -/
theorem c4_remove_port (st : MonState) (idx : Nat) (hwf : MonWF st)
    (hlt : idx < st.ports.length) :
    (remove_port st idx).ports.length = st.ports.length - 1 ∧
    idxFromB 0 (remove_port st idx).ports = true ∧
    ∀ r ∈ (remove_port st idx).epoll, r.2 < st.ports.length - 1 := by
  obtain ⟨hep, hnd, hidx, hyf⟩ := hwf
  have hsplit : st.ports
      = st.ports.take idx
        ++ st.ports.get ⟨idx, hlt⟩ :: st.ports.drop (idx + 1) := by
    conv_lhs => rw [← List.take_append_drop idx st.ports]
    rw [List.drop_eq_get_cons hlt]
  have hlen_take : (st.ports.take idx).length = idx := by
    rw [List.length_take]
    omega
  have hlen_rest : (st.ports.drop (idx + 1)).length
      = st.ports.length - (idx + 1) := List.length_drop _ _
  rw [hsplit] at hep hnd hidx
  rw [regsFrom_append, hlen_take, Nat.zero_add] at hep
  rw [monFds_append] at hnd
  rw [idxFromB_append, hlen_take, Nat.zero_add] at hidx
  obtain ⟨hnd_take, hnd_mprest, hdisj⟩ := List.nodup_append.mp hnd
  have hmpmem : st.ports.get ⟨idx, hlt⟩ ∈ st.ports :=
    List.get_mem st.ports idx hlt
  -- the epoll state after the DEL step
  have he0 : (if 0 ≤ (st.ports.get ⟨idx, hlt⟩).fd
        then epollDel st.epoll (st.ports.get ⟨idx, hlt⟩).fd else st.epoll)
      = regsFrom 0 (st.ports.take idx)
        ++ regsFrom (idx + 1) (st.ports.drop (idx + 1)) := by
    by_cases hm : monActive (st.ports.get ⟨idx, hlt⟩) = true
    · obtain ⟨hfd, hyield⟩ := (monActive_iff _).mp hm
      have hfds : monFds (st.ports.get ⟨idx, hlt⟩ :: st.ports.drop (idx + 1))
          = (st.ports.get ⟨idx, hlt⟩).fd :: monFds (st.ports.drop (idx + 1)) :=
        monFds_cons_active _ _ hm
      have hnotin_rest : (st.ports.get ⟨idx, hlt⟩).fd
          ∉ monFds (st.ports.drop (idx + 1)) := by
        rw [hfds] at hnd_mprest
        exact (List.nodup_cons.mp hnd_mprest).1
      rw [if_pos hfd, hep, regsFrom_cons_active _ _ _ hm, epollDel_append]
      have hpredel : epollDel (regsFrom 0 (st.ports.take idx))
            (st.ports.get ⟨idx, hlt⟩).fd
          = regsFrom 0 (st.ports.take idx) := by
        apply epollDel_of_not_mem
        intro r hr hEq
        apply hdisj (regsFrom_fst_mem _ _ _ hr)
        rw [hEq, hfds]
        exact List.mem_cons_self _ _
      have hheaddel : epollDel
            (((st.ports.get ⟨idx, hlt⟩).fd, idx)
              :: regsFrom (idx + 1) (st.ports.drop (idx + 1)))
            (st.ports.get ⟨idx, hlt⟩).fd
          = regsFrom (idx + 1) (st.ports.drop (idx + 1)) := by
        show List.filter _ _ = _
        rw [List.filter_cons, if_neg (by simp)]
        apply epollDel_of_not_mem
        intro r hr hEq
        exact hnotin_rest (hEq ▸ regsFrom_fst_mem _ _ _ hr)
      rw [hpredel, hheaddel]
    · rw [Bool.not_eq_true] at hm
      have hfdneg : (st.ports.get ⟨idx, hlt⟩).fd < 0 := by
        by_contra hge
        push_neg at hge
        have hy : (st.ports.get ⟨idx, hlt⟩).yielded = true := by
          by_contra hy'
          rw [Bool.not_eq_true] at hy'
          have hma := (monActive_iff _).mpr ⟨hge, hy'⟩
          rw [hm] at hma
          exact Bool.noConfusion hma
        have hall := List.all_eq_true.mp hyf _ hmpmem
        rw [hy] at hall
        simp only [Bool.not_true, Bool.false_or, decide_eq_true_eq] at hall
        omega
      rw [if_neg (by omega), hep, regsFrom_cons_inactive _ _ _ hm]
  have hstate : remove_port st idx
      = { st with
          ports := st.ports.take idx
            ++ (shiftPorts (st.ports.drop (idx + 1)) idx
                  (regsFrom 0 (st.ports.take idx)
                    ++ regsFrom (idx + 1) (st.ports.drop (idx + 1)))).1,
          epoll := (shiftPorts (st.ports.drop (idx + 1)) idx
                  (regsFrom 0 (st.ports.take idx)
                    ++ regsFrom (idx + 1) (st.ports.drop (idx + 1)))).2 } := by
    unfold remove_port
    rw [dif_pos hlt]
    simp only [he0]
  have hnd_rest : (monFds (st.ports.drop (idx + 1))).Nodup := by
    by_cases hm : monActive (st.ports.get ⟨idx, hlt⟩) = true
    · rw [monFds_cons_active _ _ hm] at hnd_mprest
      exact (List.nodup_cons.mp hnd_mprest).2
    · rw [Bool.not_eq_true] at hm
      rw [monFds_cons_inactive _ _ hm] at hnd_mprest
      exact hnd_mprest
  have hpre_rest : ∀ r ∈ regsFrom 0 (st.ports.take idx),
      r.1 ∉ monFds (st.ports.drop (idx + 1)) := by
    intro r hr hmem
    apply hdisj (regsFrom_fst_mem _ _ _ hr)
    by_cases hm : monActive (st.ports.get ⟨idx, hlt⟩) = true
    · rw [monFds_cons_active _ _ hm]
      exact List.mem_cons_of_mem _ hmem
    · rw [Bool.not_eq_true] at hm
      rw [monFds_cons_inactive _ _ hm]
      exact hmem
  have hsnd := shiftPorts_snd_spec (st.ports.drop (idx + 1)) idx
    (regsFrom 0 (st.ports.take idx)) hnd_rest hpre_rest
  refine ⟨?_, ?_, ?_⟩
  · rw [hstate]
    show (st.ports.take idx ++ _).length = _
    rw [List.length_append, shiftPorts_fst_length, hlen_take, hlen_rest]
    omega
  · rw [hstate]
    show idxFromB 0 (st.ports.take idx ++ _) = true
    rw [idxFromB_append, hlen_take, Nat.zero_add]
    have h1 : idxFromB 0 (st.ports.take idx) = true := by
      simp only [Bool.and_eq_true] at hidx
      exact hidx.1
    rw [h1, shiftPorts_fst_idx]
    rfl
  · intro r hr
    rw [hstate] at hr
    have hr' : r ∈ regsFrom 0 (st.ports.take idx)
        ++ regsFrom idx (st.ports.drop (idx + 1)) := by
      rw [← hsnd]
      exact hr
    rcases List.mem_append.mp hr' with hr2 | hr2
    · have := regsFrom_bound _ _ _ hr2
      rw [hlen_take] at this
      omega
    · have := regsFrom_bound _ _ _ hr2
      rw [hlen_rest] at this
      omega

/-- Witness for C4 on a concrete well-formed two-port state. -/
theorem c4_remove_port_witness :
    (remove_port wfState2 0).ports.length = wfState2.ports.length - 1 ∧
    idxFromB 0 (remove_port wfState2 0).ports = true ∧
    ∀ r ∈ (remove_port wfState2 0).epoll,
      r.2 < wfState2.ports.length - 1 :=
  c4_remove_port wfState2 0 (by constructor <;> decide) (by decide)

theorem yield_port_state (st : MonState) (idx : Nat) (mp : MPort)
    (hlt : idx < st.ports.length) (hget : st.ports.get ⟨idx, hlt⟩ = mp)
    (hy : mp.yielded = false) :
    yield_port st idx
      = ({ st with
            ports := st.ports.set idx
              { mp with fd := if 0 ≤ mp.fd then -1 else mp.fd,
                        yielded := true,
                        log := log_marker mp.log yieldMsg },
            epoll := if 0 ≤ mp.fd then epollDel st.epoll mp.fd
                     else st.epoll },
         strL "OK yielded " ++ mp.devPath ++ strL "\n") := by
  unfold yield_port
  rw [dif_pos hlt, hget]
  simp [hy]

theorem reclaim_port_state (st : MonState) (idx : Nat) (mp : MPort)
    (f : Int) (hlt : idx < st.ports.length)
    (hget : st.ports.get ⟨idx, hlt⟩ = mp) (hy : mp.yielded = true) :
    reclaim_port st idx (some f) true
      = ({ st with
            ports := st.ports.set idx
              { mp with fd := f, yielded := false,
                        log := log_marker mp.log reclaimMsg },
            epoll := epollAdd st.epoll f mp.evtIndex },
         strL "OK reclaimed " ++ mp.devPath ++ strL "\n") := by
  unfold reclaim_port
  rw [dif_pos hlt, hget]
  simp [hy]

/-- Claim C6.  For a monitored port that is not yielded, whose log is open
and whose serial reopen (and re-registration) succeeds with fd `f`,
`yield_port` followed by `reclaim_port` leaves the port not yielded,
appends exactly the two marker blocks (PORT YIELDED then PORT RECLAIMED,
each being `log_marker`'s output: pending-line flush plus marker text) to
its log file which is otherwise unchanged and never closed, and registers
the new fd under the port's existing event-source tag with its index
unchanged. -/
theorem c6_yield_reclaim (st : MonState) (idx : Nat) (mp : MPort)
    (f : Int) (hlt : idx < st.ports.length)
    (hget : st.ports.get ⟨idx, hlt⟩ = mp) (hy : mp.yielded = false)
    (hopen : mp.log.isOpen = true) :
    ∃ mp',
      (reclaim_port (yield_port st idx).1 idx (some f) true).1.ports.get? idx
          = some mp' ∧
      mp'.yielded = false ∧
      mp'.fd = f ∧
      mp'.evtIndex = mp.evtIndex ∧
      mp'.devPath = mp.devPath ∧
      mp'.log.isOpen = true ∧
      mp'.log.file = mp.log.file ++ bufDump mp.log.linebuf
        ++ markerText yieldMsg ++ markerText reclaimMsg ∧
      (f, mp.evtIndex)
        ∈ (reclaim_port (yield_port st idx).1 idx (some f) true).1.epoll := by
  have hst1 := yield_port_state st idx mp hlt hget hy
  have hlt1 : idx < (yield_port st idx).1.ports.length := by
    rw [hst1]
    simpa using hlt
  have hget1 : (yield_port st idx).1.ports.get ⟨idx, hlt1⟩
      = { mp with fd := if 0 ≤ mp.fd then -1 else mp.fd,
                  yielded := true, log := log_marker mp.log yieldMsg } := by
    have := hst1
    revert hlt1
    rw [this]
    intro hlt1
    simp
  have hst2 := reclaim_port_state (yield_port st idx).1 idx _ f hlt1 hget1
    rfl
  have hmark1 : log_marker mp.log yieldMsg
      = { mp.log with
          file := mp.log.file ++ bufDump mp.log.linebuf
            ++ markerText yieldMsg,
          linebuf := [] } := by
    simp [log_marker, hopen]
  have hmark2 : log_marker (log_marker mp.log yieldMsg) reclaimMsg
      = { mp.log with
          file := mp.log.file ++ bufDump mp.log.linebuf
            ++ markerText yieldMsg ++ markerText reclaimMsg,
          linebuf := [] } := by
    rw [hmark1]
    simp [log_marker, hopen, bufDump]
  refine ⟨{ mp with fd := f, yielded := false,
                    log := log_marker (log_marker mp.log yieldMsg)
                             reclaimMsg },
    ?_, rfl, rfl, rfl, rfl, ?_, ?_, ?_⟩
  · rw [hst2, hst1]
    simp only [List.get?_eq_getElem?, List.set_set]
    exact List.getElem?_set_self (by simpa using hlt)
  · rw [hmark2]
    exact hopen
  · rw [hmark2]
  · rw [hst2]
    show (f, mp.evtIndex) ∈ epollAdd _ f _
    unfold epollAdd
    exact List.mem_append_right _ (List.mem_singleton_self _)

/-- Witness for C6 on the concrete two-port state, reopening with fd 9. -/
theorem c6_yield_reclaim_witness :
    ∃ mp',
      (reclaim_port (yield_port wfState2 0).1 0 (some 9) true).1.ports.get? 0
          = some mp' ∧
      mp'.yielded = false ∧
      mp'.fd = 9 ∧
      mp'.evtIndex = (wfState2.ports.get ⟨0, by decide⟩).evtIndex ∧
      mp'.devPath = (wfState2.ports.get ⟨0, by decide⟩).devPath ∧
      mp'.log.isOpen = true ∧
      mp'.log.file = (wfState2.ports.get ⟨0, by decide⟩).log.file
        ++ bufDump (wfState2.ports.get ⟨0, by decide⟩).log.linebuf
        ++ markerText yieldMsg ++ markerText reclaimMsg ∧
      ((9 : Int), (wfState2.ports.get ⟨0, by decide⟩).evtIndex)
        ∈ (reclaim_port (yield_port wfState2 0).1 0 (some 9) true).1.epoll :=
  c6_yield_reclaim wfState2 0 _ 9 (by decide) rfl (by decide) (by decide)

theorem isPrefixOf_exists :
    ∀ (p l : List Char), p.isPrefixOf l = true → ∃ t, l = p ++ t
  | [], l, _ => ⟨l, rfl⟩
  | c :: p, [], h => by simp [List.isPrefixOf] at h
  | c :: p, d :: l, h => by
    simp only [List.isPrefixOf, Bool.and_eq_true, beq_iff_eq] at h
    obtain ⟨t, rfl⟩ := isPrefixOf_exists p l h.2
    exact ⟨t, by simp [h.1]⟩

theorem nl_last (a dev : List Char) :
    (a ++ dev ++ strL "\n").getLast? = some '\n' := by
  rw [show strL "\n" = ['\n'] from rfl]
  exact List.getLast?_concat _

theorem findPortAux_spec :
    ∀ (ps : List MPort) (dev : List Char) (i j : Nat),
      findPortAux dev ps i = some j →
      ∃ k, ∃ (hlt : k < ps.length),
        j = i + k ∧ (ps.get ⟨k, hlt⟩).devPath = dev
  | [], _, _, _, h => by simp [findPortAux] at h
  | p :: ps, dev, i, j, h => by
    by_cases hd : p.devPath = dev
    · simp only [findPortAux, if_pos hd, Option.some.injEq] at h
      exact ⟨0, by simp, by omega, hd⟩
    · simp only [findPortAux, if_neg hd] at h
      obtain ⟨k, hlt, hj, hdev⟩ := findPortAux_spec ps dev (i + 1) j h
      exact ⟨k + 1, by simpa using Nat.succ_lt_succ hlt, by omega, hdev⟩

theorem find_port_some (st : MonState) (dev : List Char) (idx : Nat)
    (h : find_port_by_path st dev = some idx) :
    ∃ (hlt : idx < st.ports.length),
      (st.ports.get ⟨idx, hlt⟩).devPath = dev := by
  obtain ⟨k, hlt, hj, hdev⟩ := findPortAux_spec st.ports dev 0 idx h
  have hk : k = idx := by omega
  subst hk
  exact ⟨hlt, hdev⟩

theorem yield_port_resp (st : MonState) (idx : Nat)
    (hlt : idx < st.ports.length) :
    (yield_port st idx).2
        = strL "OK already yielded "
          ++ (st.ports.get ⟨idx, hlt⟩).devPath ++ strL "\n"
      ∨ (yield_port st idx).2
        = strL "OK yielded " ++ (st.ports.get ⟨idx, hlt⟩).devPath
          ++ strL "\n" := by
  unfold yield_port
  rw [dif_pos hlt]
  by_cases hy : (st.ports.get ⟨idx, hlt⟩).yielded
  · left
    simp only [List.get_eq_getElem] at hy
    simp [hy]
  · right
    simp only [List.get_eq_getElem] at hy
    simp [hy]

theorem reclaim_port_resp (st : MonState) (idx : Nat) (fd : Option Int)
    (eOk : Bool) (hlt : idx < st.ports.length) :
    (reclaim_port st idx fd eOk).2
        = strL "OK already monitoring "
          ++ (st.ports.get ⟨idx, hlt⟩).devPath ++ strL "\n"
      ∨ (reclaim_port st idx fd eOk).2
        = strL "ERROR cannot reopen "
          ++ (st.ports.get ⟨idx, hlt⟩).devPath ++ strL "\n"
      ∨ (reclaim_port st idx fd eOk).2
        = strL "ERROR epoll add failed for "
          ++ (st.ports.get ⟨idx, hlt⟩).devPath ++ strL "\n"
      ∨ (reclaim_port st idx fd eOk).2
        = strL "OK reclaimed "
          ++ (st.ports.get ⟨idx, hlt⟩).devPath ++ strL "\n" := by
  unfold reclaim_port
  rw [dif_pos hlt]
  by_cases hy : (st.ports.get ⟨idx, hlt⟩).yielded = false
  · left
    simp only [List.get_eq_getElem] at hy
    simp [hy]
  · simp only [List.get_eq_getElem] at hy
    cases fd with
    | none =>
      right; left
      simp [hy]
    | some f =>
      by_cases he : eOk = true
      · right; right; right
        simp [hy, he]
      · right; right; left
        have he' : eOk = false := by
          cases eOk
          · rfl
          · exact absurd rfl he
        simp [hy, he']

/-- Counterexample to claim C9 as stated: a successful `STATUS` request is
answered with the status document itself, which begins with neither
`"OK "` nor `"ERROR "`, refuting the universal clause that every success
response begins with `"OK "`. -/
theorem c9_status_counterexample :
    (handle_control_cmd (initMon []) (strL "STATUS")
        (some (strL "pid: 1\n")) none false).2 = strL "pid: 1\n" ∧
    (strL "OK ").isPrefixOf (strL "pid: 1\n") = false ∧
    (strL "ERROR ").isPrefixOf (strL "pid: 1\n") = false := by
  refine ⟨by decide, by decide, by decide⟩

/-- Claim C9, amended.  For every control request other than `STATUS` the
handler produces exactly one newline-terminated response beginning with
`"OK "` or `"ERROR "`; `YIELD <dev>` answers `OK yielded`/`OK already
yielded` or `ERROR port not found: <dev>`; `RECLAIM <dev>` behaves
symmetrically with the additional failures `ERROR cannot reopen` and
`ERROR epoll add failed for`; `QUIT` answers `OK shutting down` and clears
the running flag; any other request gets `ERROR unknown command: <line>`;
a `STATUS` request whose status file cannot be read gets
`ERROR cannot read status`.  (The successful `STATUS` response is the
status document itself, not `"OK "`-prefixed -- see the
counterexample.) -/
theorem c9_control_responses (st : MonState) (raw : List Char)
    (doc : Option (List Char)) (fd : Option Int) (eOk : Bool) :
    (stripTrailingNl raw ≠ strL "STATUS" →
      ((strL "OK ").isPrefixOf
          (handle_control_cmd st raw doc fd eOk).2 = true
        ∨ (strL "ERROR ").isPrefixOf
          (handle_control_cmd st raw doc fd eOk).2 = true) ∧
      (handle_control_cmd st raw doc fd eOk).2.getLast? = some '\n') ∧
    (stripTrailingNl raw = strL "QUIT" →
      (handle_control_cmd st raw doc fd eOk).2 = strL "OK shutting down\n" ∧
      (handle_control_cmd st raw doc fd eOk).1.running = false) ∧
    ((strL "YIELD ").isPrefixOf (stripTrailingNl raw) = true →
      find_port_by_path st ((stripTrailingNl raw).drop 6) = none →
      (handle_control_cmd st raw doc fd eOk).2
        = strL "ERROR port not found: "
          ++ (stripTrailingNl raw).drop 6 ++ strL "\n") ∧
    ((strL "RECLAIM ").isPrefixOf (stripTrailingNl raw) = true →
      find_port_by_path st ((stripTrailingNl raw).drop 8) = none →
      (handle_control_cmd st raw doc fd eOk).2
        = strL "ERROR port not found: "
          ++ (stripTrailingNl raw).drop 8 ++ strL "\n") ∧
    (stripTrailingNl raw ≠ strL "STATUS" →
      (strL "YIELD ").isPrefixOf (stripTrailingNl raw) = false →
      (strL "RECLAIM ").isPrefixOf (stripTrailingNl raw) = false →
      stripTrailingNl raw ≠ strL "QUIT" →
      (handle_control_cmd st raw doc fd eOk).2
        = strL "ERROR unknown command: " ++ stripTrailingNl raw
          ++ strL "\n") ∧
    (stripTrailingNl raw = strL "STATUS" → doc = none →
      (handle_control_cmd st raw doc fd eOk).2
        = strL "ERROR cannot read status\n") := by
  refine ⟨?_, ?_, ?_, ?_, ?_, ?_⟩
  · intro hst
    simp only [handle_control_cmd]
    rw [if_neg hst]
    by_cases h2 : (strL "YIELD ").isPrefixOf (stripTrailingNl raw) = true
    · rw [if_pos h2]
      cases hf : find_port_by_path st ((stripTrailingNl raw).drop 6) with
      | none =>
        exact ⟨Or.inr rfl, nl_last _ _⟩
      | some i =>
        obtain ⟨hlt, _⟩ := find_port_some st _ i hf
        rcases yield_port_resp st i hlt with hr | hr
        · rw [hr]
          exact ⟨Or.inl rfl, nl_last _ _⟩
        · rw [hr]
          exact ⟨Or.inl rfl, nl_last _ _⟩
    · rw [if_neg h2]
      by_cases h3 : (strL "RECLAIM ").isPrefixOf (stripTrailingNl raw) = true
      · rw [if_pos h3]
        cases hf : find_port_by_path st ((stripTrailingNl raw).drop 8) with
        | none =>
          exact ⟨Or.inr rfl, nl_last _ _⟩
        | some i =>
          obtain ⟨hlt, _⟩ := find_port_some st _ i hf
          rcases reclaim_port_resp st i fd eOk hlt with hr | hr | hr | hr
          · rw [hr]
            exact ⟨Or.inl rfl, nl_last _ _⟩
          · rw [hr]
            exact ⟨Or.inr rfl, nl_last _ _⟩
          · rw [hr]
            exact ⟨Or.inr rfl, nl_last _ _⟩
          · rw [hr]
            exact ⟨Or.inl rfl, nl_last _ _⟩
      · rw [if_neg h3]
        by_cases h4 : stripTrailingNl raw = strL "QUIT"
        · rw [if_pos h4]
          exact ⟨Or.inl rfl, rfl⟩
        · rw [if_neg h4]
          exact ⟨Or.inr rfl, nl_last _ _⟩
  · intro hq
    simp only [handle_control_cmd]
    rw [hq]
    rw [if_neg (by decide), if_neg (by decide), if_neg (by decide),
      if_pos rfl]
    exact ⟨rfl, rfl⟩
  · intro h2 hf
    have hst : stripTrailingNl raw ≠ strL "STATUS" := by
      intro he
      rw [he] at h2
      exact absurd h2 (by decide)
    simp only [handle_control_cmd]
    rw [if_neg hst, if_pos h2, hf]
  · intro h3 hf
    obtain ⟨t, ht⟩ := isPrefixOf_exists _ _ h3
    have hst : stripTrailingNl raw ≠ strL "STATUS" := by
      rw [ht]
      intro he
      simp [strL] at he
    have hyf : (strL "YIELD ").isPrefixOf (stripTrailingNl raw) = false := by
      rw [ht]
      rfl
    simp only [handle_control_cmd]
    rw [if_neg hst, if_neg (by simp [hyf]), if_pos h3, hf]
  · intro hst h2f h3f hquit
    simp only [handle_control_cmd]
    rw [if_neg hst, if_neg (by simp [h2f]), if_neg (by simp [h3f]),
      if_neg hquit]
  · intro hs hdoc
    simp only [handle_control_cmd]
    rw [if_pos hs, hdoc]

/-- Witness for the amended C9: a concrete QUIT request. -/
theorem c9_control_responses_witness :
    (handle_control_cmd (initMon []) (strL "QUIT\n") none none
        false).2 = strL "OK shutting down\n" ∧
    (handle_control_cmd (initMon []) (strL "QUIT\n") none none
        false).1.running = false := by
  have h := c9_control_responses (initMon []) (strL "QUIT\n") none none false
  exact h.2.1 (by decide)

theorem bytesLt_irrefl : ∀ a : List Nat, bytesLt a a = false
  | [] => rfl
  | x :: a => by simp [bytesLt, Nat.lt_irrefl, bytesLt_irrefl a]

theorem bytesLt_trans :
    ∀ a b c : List Nat, bytesLt a b = true → bytesLt b c = true →
      bytesLt a c = true
  | [], [], _, h1, _ => by simp [bytesLt] at h1
  | [], _ :: _, [], _, h2 => by simp [bytesLt] at h2
  | [], _ :: _, _ :: _, _, _ => rfl
  | _ :: _, [], _, h1, _ => by simp [bytesLt] at h1
  | _ :: _, _ :: _, [], _, h2 => by simp [bytesLt] at h2
  | x :: a, y :: b, z :: c, h1, h2 => by
    simp only [bytesLt] at h1 h2 ⊢
    by_cases hxy : x < y
    · by_cases hyz : y < z
      · simp [show x < z from by omega]
      · by_cases hzy : z < y
        · simp [hyz, hzy] at h2
        · have hyz' : y = z := by omega
          subst hyz'
          simp [hxy]
    · by_cases hyx : y < x
      · simp [hxy, hyx] at h1
      · have hxy' : x = y := by omega
        subst hxy'
        simp only [hxy, if_neg, ite_false] at h1 ⊢
        by_cases hyz : x < z
        · simp [hyz]
        · by_cases hzy : z < x
          · simp [hyz, hzy] at h2
          · have hxz : x = z := by omega
            subst hxz
            simp only [hxy, if_neg, ite_false] at h2 ⊢
            exact bytesLt_trans a b c h1 h2

theorem bytesLt_connex :
    ∀ a b : List Nat, ¬ a = b → bytesLt a b = true ∨ bytesLt b a = true
  | [], [], h => absurd rfl h
  | [], _ :: _, _ => Or.inl rfl
  | _ :: _, [], _ => Or.inr rfl
  | x :: a, y :: b, h => by
    by_cases hxy : x < y
    · exact Or.inl (by simp [bytesLt, hxy])
    · by_cases hyx : y < x
      · exact Or.inr (by simp [bytesLt, hyx])
      · have hxy' : x = y := by omega
        subst hxy'
        have hab : ¬ a = b := fun he => h (by rw [he])
        rcases bytesLt_connex a b hab with hl | hl
        · exact Or.inl (by simp [bytesLt, Nat.lt_irrefl, hl])
        · exact Or.inr (by simp [bytesLt, Nat.lt_irrefl, hl])

theorem bytesLe_trans (a b c : List Nat) (h1 : bytesLe a b = true)
    (h2 : bytesLe b c = true) : bytesLe a c = true := by
  simp only [bytesLe, Bool.not_eq_true'] at h1 h2 ⊢
  by_contra hca
  rw [Bool.not_eq_false] at hca
  by_cases hbc : b = c
  · subst hbc
    rw [hca] at h1
    cases h1
  · rcases bytesLt_connex b c hbc with h | h
    · have := bytesLt_trans b c a h hca
      rw [h1] at this
      cases this
    · rw [h2] at h
      cases h

theorem bytesLe_total (a b : List Nat) :
    (bytesLe a b || bytesLe b a) = true := by
  cases hab : bytesLt a b <;> cases hba : bytesLt b a <;>
    simp [bytesLe, hab, hba]
  have := bytesLt_trans a b a hab hba
  rw [bytesLt_irrefl] at this
  cases this

theorem rmdirsOf_append (a b : List FsAction) :
    rmdirsOf (a ++ b) = rmdirsOf a ++ rmdirsOf b := by
  simp [rmdirsOf, List.filterMap_append]

theorem rmdirsOf_unlinks :
    ∀ (dir : List Nat) (fs : List (List Nat)),
      rmdirsOf (fs.map (fun f => FsAction.unlink dir f)) = []
  | _, [] => rfl
  | dir, f :: fs => by
    have h := rmdirsOf_unlinks dir fs
    simp only [rmdirsOf, List.filterMap_cons] at h ⊢
    exact h

theorem rmdirsOf_dirActions (d : SessDir) :
    rmdirsOf (dirActions d) = [d.name] := by
  rw [dirActions, rmdirsOf_append, rmdirsOf_unlinks]
  rfl

theorem rmdirsOf_flatMap :
    ∀ ds : List SessDir,
      rmdirsOf (ds.flatMap dirActions) = ds.map (fun d => d.name)
  | [] => rfl
  | d :: ds => by
    rw [List.flatMap_cons, rmdirsOf_append, rmdirsOf_dirActions,
      rmdirsOf_flatMap ds]
    rfl

theorem dirActions_sublist :
    ∀ (ds : List SessDir) (d : SessDir), d ∈ ds →
      (dirActions d).Sublist (ds.flatMap dirActions)
  | [], _, h => absurd h (List.not_mem_nil _)
  | e :: ds, d, h => by
    rw [List.flatMap_cons]
    rcases List.mem_cons.mp h with rfl | h
    · exact List.sublist_append_left _ _
    · exact (dirActions_sublist ds d h).trans (List.sublist_append_right _ _)

/-- Claim C8.  `log_prune_sessions keep`, given the base-directory
entries, removes exactly `count - keep` directories (`count` being the
number of `session-` entries considered, at most 256), namely the
lexicographically smallest ones -- the first `count - keep` of the
`strcmp`-sorted session list; for each it unlinks its non-dot files and
then (after them) removes the directory; every removed name is strictly
below every kept name, `min keep count` directories are left in place,
and the sorted list is a permutation of the considered sessions.
The `Nodup` hypothesis states that directory names are unique, as
`readdir` guarantees. -/
theorem c8_log_prune_sessions (keep : Nat) (entries : List SessDir)
    (hnd : ((sessionsOf entries).map (fun d => d.name)).Nodup) :
    rmdirsOf (log_prune_sessions keep entries)
      = ((sortedSessionsOf entries).take
          ((sessionsOf entries).length - keep)).map (fun d => d.name) ∧
    (rmdirsOf (log_prune_sessions keep entries)).length
      = (sessionsOf entries).length - keep ∧
    (∀ d ∈ (sortedSessionsOf entries).take
        ((sessionsOf entries).length - keep),
      (dirActions d).Sublist (log_prune_sessions keep entries)) ∧
    (∀ a ∈ rmdirsOf (log_prune_sessions keep entries),
      ∀ b ∈ ((sortedSessionsOf entries).drop
          ((sessionsOf entries).length - keep)).map (fun d => d.name),
        bytesLt a b = true) ∧
    ((sortedSessionsOf entries).drop
        ((sessionsOf entries).length - keep)).length
      = min keep (sessionsOf entries).length ∧
    (sortedSessionsOf entries).Perm (sessionsOf entries) := by
  have hlen : (sortedSessionsOf entries).length
      = (sessionsOf entries).length := by
    rw [sortedSessionsOf]
    exact List.length_mergeSort _
  have hperm : (sortedSessionsOf entries).Perm (sessionsOf entries) :=
    List.mergeSort_perm _ _
  by_cases hle : (sessionsOf entries).length ≤ keep
  · have hz : (sessionsOf entries).length - keep = 0 := by omega
    have hact : log_prune_sessions keep entries = [] := by
      simp [log_prune_sessions, hle]
    rw [hact, hz]
    refine ⟨by simp [rmdirsOf], by simp [rmdirsOf], ?_, ?_, ?_, hperm⟩
    · intro d hd
      simp at hd
    · intro a ha
      simp [rmdirsOf] at ha
    · rw [List.drop_zero, hlen]
      omega
  · have hact : log_prune_sessions keep entries
        = ((sortedSessionsOf entries).take
            ((sessionsOf entries).length - keep)).flatMap dirActions := by
      simp [log_prune_sessions, hle]
    have hrm : rmdirsOf (log_prune_sessions keep entries)
        = ((sortedSessionsOf entries).take
            ((sessionsOf entries).length - keep)).map (fun d => d.name) := by
      rw [hact, rmdirsOf_flatMap]
    have hsorted := @List.sorted_mergeSort SessDir
      (fun a b : SessDir => bytesLe a.name b.name)
      (fun a b c => bytesLe_trans a.name b.name c.name)
      (fun a b => bytesLe_total a.name b.name)
      (sessionsOf entries)
    have hsorted' : ((sortedSessionsOf entries).take
          ((sessionsOf entries).length - keep)
        ++ (sortedSessionsOf entries).drop
          ((sessionsOf entries).length - keep)).Pairwise
        (fun a b : SessDir => bytesLe a.name b.name = true) := by
      rw [List.take_append_drop]
      exact hsorted
    obtain ⟨-, -, hcross⟩ := List.pairwise_append.mp hsorted'
    have hnds : ((sortedSessionsOf entries).map (fun d => d.name)).Nodup :=
      ((hperm.map _).nodup_iff).mpr hnd
    have hnds' : (((sortedSessionsOf entries).take
          ((sessionsOf entries).length - keep)).map (fun d => d.name)
        ++ ((sortedSessionsOf entries).drop
          ((sessionsOf entries).length - keep)).map (fun d => d.name)).Nodup := by
      rw [← List.map_append, List.take_append_drop]
      exact hnds
    obtain ⟨-, -, hdisj⟩ := List.nodup_append.mp hnds'
    refine ⟨hrm, ?_, ?_, ?_, ?_, hperm⟩
    · rw [hrm, List.length_map, List.length_take, hlen]
      omega
    · intro d hd
      rw [hact]
      exact dirActions_sublist _ _ hd
    · intro a ha b hb
      rw [hrm] at ha
      rcases List.mem_map.mp ha with ⟨da, hda, rfl⟩
      rcases List.mem_map.mp hb with ⟨db, hdb, rfl⟩
      have hleab : bytesLe da.name db.name = true := hcross da hda db hdb
      have hne : ¬ da.name = db.name := by
        intro he
        exact hdisj (List.mem_map_of_mem _ hda)
          (he ▸ List.mem_map_of_mem _ hdb)
      rcases bytesLt_connex da.name db.name hne with h | h
      · exact h
      · simp only [bytesLe, Bool.not_eq_true'] at hleab
        rw [h] at hleab
        cases hleab
    · rw [List.length_drop, hlen]
      omega

/-- Witness for C8 on the concrete retention scenario of the test suite:
five sessions, retention 3, the two oldest removed. -/
theorem c8_log_prune_sessions_witness :
    rmdirsOf (log_prune_sessions 3
        [{ name := strBytes "session-2", files := [strBytes "a.log"] },
         { name := strBytes "session-0", files := [] },
         { name := strBytes "other", files := [] },
         { name := strBytes "session-3", files := [] },
         { name := strBytes "session-1", files := [strBytes ".keep"] },
         { name := strBytes "session-4", files := [] }])
      = ((sortedSessionsOf
        [{ name := strBytes "session-2", files := [strBytes "a.log"] },
         { name := strBytes "session-0", files := [] },
         { name := strBytes "other", files := [] },
         { name := strBytes "session-3", files := [] },
         { name := strBytes "session-1", files := [strBytes ".keep"] },
         { name := strBytes "session-4", files := [] }]).take
          ((sessionsOf
        [{ name := strBytes "session-2", files := [strBytes "a.log"] },
         { name := strBytes "session-0", files := [] },
         { name := strBytes "other", files := [] },
         { name := strBytes "session-3", files := [] },
         { name := strBytes "session-1", files := [strBytes ".keep"] },
         { name := strBytes "session-4", files := [] }]).length - 3)).map
          (fun d => d.name) :=
  (c8_log_prune_sessions 3 _ (by decide)).1

end UartMon
